import Mathlib

/-!
Verification development for the VotingPlugin-Presets repository.

The repository consists of two Node scripts:
* `tools/generate-preset-from-issue.mjs` — parses a GitHub issue-form body
  into a field map (`parseIssueForm`), generates VoteSite/Reward preset
  files from it, and triggers an index rebuild;
* `tools/build-index.mjs` — scans preset `*.meta.json` and bundle
  `*.bundle.json` documents, projects each to an index entry, checks id
  uniqueness, sorts, and writes `index.json`.

The shallow embedding below models JavaScript strings as Lean `String`
values (sequences of characters; the UTF-16 code-unit granularity of JS
strings only differs from the character granularity beyond the basic
multilingual plane, which none of the analyzed behaviors depend on).
JavaScript whitespace (for `trim` and the regex class `\s`) is modelled
by the ASCII whitespace characters; the exotic Unicode space characters
are outside the model and none of the analyzed behaviors depend on them.
`toLowerCase` is modelled on the ASCII alphabet.  Stateful file writes
are modelled by explicit association lists from path to content, and
each script's fallible main computation returns `Except String α`
(a thrown `Error` becomes `Except.error`, and no writes happen past a
throw, matching the sequential, synchronous scripts).
-/

/-- JS whitespace (the characters recognized by `String.prototype.trim`
and the regex class for whitespace), restricted to the ASCII range. -/
def jsWhitespace (c : Char) : Bool :=
  c == ' ' || c == '\t' || c == '\n' || c == '\r' || c == '\x0b' || c == '\x0c'

/-- The lowercase mapping of JS `String.prototype.toLowerCase` on the
ASCII alphabet, as a table from each uppercase letter to its lowercase
counterpart. -/
def lowerPairs : List (Char × Char) :=
  [('A', 'a'), ('B', 'b'), ('C', 'c'), ('D', 'd'), ('E', 'e'), ('F', 'f'),
   ('G', 'g'), ('H', 'h'), ('I', 'i'), ('J', 'j'), ('K', 'k'), ('L', 'l'),
   ('M', 'm'), ('N', 'n'), ('O', 'o'), ('P', 'p'), ('Q', 'q'), ('R', 'r'),
   ('S', 's'), ('T', 't'), ('U', 'u'), ('V', 'v'), ('W', 'w'), ('X', 'x'),
   ('Y', 'y'), ('Z', 'z')]

/-- JS `String.prototype.toLowerCase` on one character, modelled on the
ASCII alphabet: the letters A..Z map to a..z, everything else is kept. -/
def jsCharLower (c : Char) : Char :=
  match lowerPairs.find? (fun p => p.1 == c) with
  | some p => p.2
  | none => c

/-- JS `String.prototype.toLowerCase`. -/
def jsLower (s : String) : String :=
  ⟨s.data.map jsCharLower⟩

/-- Drops leading and trailing JS whitespace from a character list. -/
def trimChars (l : List Char) : List Char :=
  List.rdropWhile jsWhitespace (List.dropWhile jsWhitespace l)

/-- JS `String.prototype.trim`. -/
def jsTrim (s : String) : String :=
  ⟨trimChars s.data⟩

/-- JS `String.prototype.startsWith`. -/
def strStartsWith (s pat : String) : Bool :=
  pat.data.isPrefixOf s.data

/-- JS `String.prototype.includes` (substring containment). -/
def containsSub (s pat : String) : Bool :=
  decide (List.IsInfix pat.data s.data)

/-- JS `String.prototype.substring (n)` / dropping the first `n`
characters of a string. -/
def strDrop (s : String) (n : Nat) : String :=
  ⟨s.data.drop n⟩

/-- JS `String.prototype.endsWith`. -/
def strEndsWith (s pat : String) : Bool :=
  pat.data.isSuffixOf s.data

/-- JS `String.prototype.replaceAll` for a single-character pattern and
replacement (every use in the two scripts replaces one character by one
character). -/
def replaceAll (s : String) (pat repl : Char) : String :=
  ⟨s.data.map (fun c => if c = pat then repl else c)⟩

/-- Splits a character list at every occurrence of a separator
character: JS `String.prototype.split` with a one-character
separator. -/
def splitChar (sep : Char) : List Char → List (List Char)
  | [] => [[]]
  | c :: rest =>
    if c = sep then [] :: splitChar sep rest
    else
      match splitChar sep rest with
      | l :: ls => (c :: l) :: ls
      | [] => [[c]]

/-- JS `String.prototype.split` with a one-character separator, on
strings. -/
def strSplitOn (s : String) (sep : Char) : List String :=
  (splitChar sep s.data).map (fun l => (⟨l⟩ : String))

/-- Lexicographic (character-by-character by code point) strict
comparison of character lists: the order of the JS default array sort
on strings, used by the domain and keyword normalizations (the default
sort compares by code units, not by locale collation). -/
def listLtB : List Char → List Char → Bool
  | [], [] => false
  | [], _ :: _ => true
  | _ :: _, [] => false
  | a :: as, b :: bs =>
    if a < b then true else if b < a then false else listLtB as bs

/-- Strict lexicographic order on strings. -/
def strLtP (a b : String) : Prop := listLtB a.data b.data = true

/-- Lexicographic order on strings (less or equal). -/
def strLeP (a b : String) : Prop := listLtB b.data a.data = false

instance decStrLtP : ∀ a b, Decidable (strLtP a b) := fun a b => by
  unfold strLtP; infer_instance

instance decStrLeP : ∀ a b, Decidable (strLeP a b) := fun a b => by
  unfold strLeP; infer_instance

/-- Property lookup on a JS object modelled as an association list,
returning `none` for an absent key. -/
def lookupStr (m : List (String × String)) (k : String) : Option String :=
  match m with
  | [] => none
  | p :: rest => if p.1 = k then some p.2 else lookupStr rest k

/-- JS `obj[k] = v`: overwrites the value in place when the key exists
(JS objects keep the original insertion position), appends otherwise. -/
def setKey (m : List (String × String)) (k v : String) : List (String × String) :=
  if m.any (fun p => p.1 = k) then
    m.map (fun p => if p.1 = k then (k, v) else p)
  else m ++ [(k, v)]

/-- Splits a character list at newline characters, the last piece having
no terminator (the splitting part of the JS regex split on `\r?\n`). -/
def splitNl : List Char → List (List Char) :=
  splitChar '\n'

/-- Joins lines with newline separators: JS `Array.prototype.join`
with separator `"\n"`, at the character-list level. -/
def charJoin : List (List Char) → List Char
  | [] => []
  | [l] => l
  | l :: rest => l ++ '\n' :: charJoin rest

/-- JS `Array.prototype.join ("\n")` on strings. -/
def joinLines (ls : List String) : String :=
  ⟨charJoin (ls.map String.data)⟩

/-- Applies `f` to every element of a list except the last one. -/
def mapInit (f : α → α) : List α → List α
  | [] => []
  | [a] => [a]
  | a :: b :: rest => f a :: mapInit f (b :: rest)

/-- Removes one trailing carriage return, if present. -/
def chopCr (l : List Char) : List Char :=
  if l.getLast? = some '\r' then l.dropLast else l

/-- JS `String.prototype.split` on the regex matching an optional
carriage return followed by a newline: split at every newline, then
remove one carriage return at the end of every piece that was followed
by a newline (i.e. every piece but the last). -/
def jsSplitLines (s : String) : List String :=
  (mapInit chopCr (splitNl s.data)).map (fun l => (⟨l⟩ : String))

/-- Recognizes a header line of the issue form
(`tools/generate-preset-from-issue.mjs`, the regex match in
`parseIssueForm`): three hash marks, at least one whitespace character,
then the field name; the regex body disallows a carriage return inside
the trimmed field name (the dot of the regex does not cross line
terminators).  Returns the trimmed captured field name. -/
def headerName? (ln : String) : Option String :=
  if strStartsWith ln "###" then
    let rest := strDrop ln 3
    match rest.data with
    | [] => none
    | c :: _ =>
      if jsWhitespace c then
        let key := jsTrim rest
        if '\r' ∈ key.data then none else some key
      else none
  else none

/-- The sentinel normalization at the end of `parseIssueForm`: a value
whose trimmed lowercase form is the GitHub "No response" marker becomes
the empty string. -/
def normNoResponse (v : String) : String :=
  if jsLower (jsTrim v) = "no response" then "" else v

/-- The `flush` helper of `parseIssueForm`: when a current key is
pending, store the joined, trimmed buffer under it. -/
def flushInto (out : List (String × String)) (curKey : Option String)
    (buf : List String) : List (String × String) :=
  match curKey with
  | none => out
  | some k => setKey out k (jsTrim (joinLines buf))

/-- The line loop of `parseIssueForm`: header lines flush the pending
buffer and start a new key; other lines accumulate into the buffer when
a key is pending and are dropped otherwise; the end of input flushes. -/
def parseLoop (out : List (String × String)) (curKey : Option String)
    (buf : List String) : List String → List (String × String)
  | [] => flushInto out curKey buf
  | ln :: rest =>
    match headerName? ln with
    | some k => parseLoop (flushInto out curKey buf) (some k) [] rest
    | none =>
      match curKey with
      | none => parseLoop out none buf rest
      | some k => parseLoop out (some k) (buf ++ [ln]) rest

/-- `parseIssueForm` from `tools/generate-preset-from-issue.mjs`:
parses GitHub issue-form markdown into a field map, then normalizes
"No response" values to the empty string. -/
def parseIssueForm (body : String) : List (String × String) :=
  (parseLoop [] none [] (jsSplitLines body)).map
    (fun p => (p.1, normNoResponse p.2))

/-- `normDomain` from `tools/generate-preset-from-issue.mjs`: trim,
lowercase, strip one leading protocol, strip one leading `www.`, then
remove everything from the first slash onward.  The final removal
models the JS regex replace of a slash followed by arbitrary
non-line-terminator characters up to the end of the input: it only
fires on the first slash of the segment after the last line
terminator. -/
def lineTerm (c : Char) : Bool :=
  c == '\n' || c == '\r' || c == ' ' || c == ' '

/-- The replace step of `normDomain` for the trailing path part, at the
character-list level (see `normDomain`). -/
def stripSlashTail (l : List Char) : List Char :=
  let tail := (l.reverse.takeWhile (fun c => !lineTerm c)).reverse
  let pre := l.take (l.length - tail.length)
  pre ++ tail.takeWhile (fun c => c != '/')

/-- `normDomain` from `tools/generate-preset-from-issue.mjs`. -/
def normDomain (s : String) : String :=
  let t := jsLower (jsTrim s)
  let t := if strStartsWith t "https://" then strDrop t 8
           else if strStartsWith t "http://" then strDrop t 7 else t
  let t := if strStartsWith t "www." then strDrop t 4 else t
  ⟨stripSlashTail t.data⟩

/-- `isBoolStr` from `tools/generate-preset-from-issue.mjs`: the
trimmed, lowercased value is the string true or the string false. -/
def isBoolStr (s : String) : Bool :=
  let v := jsLower (jsTrim s)
  v == "true" || v == "false"

/-- `isIntStr` from `tools/generate-preset-from-issue.mjs`: the trimmed
value is a nonempty run of decimal digits. -/
def isIntStr (s : String) : Bool :=
  let t := jsTrim s
  !t.data.isEmpty && t.data.all Char.isDigit

/-- `writeFile` from `tools/generate-preset-from-issue.mjs`.  The JS
function's doc comment reads "Writes a file if it does not already
exist", but the body calls `fs.writeFileSync` unconditionally, which
truncates and overwrites any existing file.  The filesystem is modelled
as an association list from path to content; directory creation
(`mkdirp`) has no observable effect in this model. -/
def writeFile (fs : List (String × String)) (p content : String) :
    List (String × String) :=
  setKey fs p content

/-- One placeholder slot of a preset metadata document. -/
structure Placeholder where
  type : String
  label : String
  default : String
deriving DecidableEq, Repr

/-- The display block of a metadata document. -/
structure DisplayInfo where
  name : String
  description : String
deriving DecidableEq, Repr

/-- One fragment reference of a metadata document. -/
structure FragmentRef where
  path : String
  mergeInto : String
deriving DecidableEq, Repr

/-- The VoteSite preset metadata document built by the generator.  The
nested JS `match` object is flattened into the two fields
`matchDomains` and `matchKeywords` because `match` is reserved in
Lean. -/
structure VotesiteMeta where
  schemaVersion : Nat
  id : String
  display : DisplayInfo
  matchDomains : List String
  matchKeywords : List String
  placeholders : List (String × Placeholder)
  fragments : List FragmentRef
  verified : Bool
deriving DecidableEq, Repr

/-- The Reward preset metadata document built by the generator (its JS
`match` object only has keywords). -/
structure RewardMeta where
  schemaVersion : Nat
  id : String
  display : DisplayInfo
  matchKeywords : List String
  placeholders : List (String × Placeholder)
  fragments : List FragmentRef
  verified : Bool
deriving DecidableEq, Repr

/-- Content written by the generator: a VoteSite metadata document, a
Reward metadata document, or a YAML fragment text. -/
inductive GenFile where
  | votesiteMeta (m : VotesiteMeta)
  | rewardMeta (m : RewardMeta)
  | yml (content : String)
deriving DecidableEq, Repr

/-- Field access `fields[k] || ""` on the parsed issue-form map. -/
def lookupField (fields : List (String × String)) (k : String) : String :=
  (lookupStr fields k).getD ""

/-- The VoteSite branch of `main` in
`tools/generate-preset-from-issue.mjs` (lines 123-183): validates the
fields, assembles the metadata document and returns the list of (path,
content) writes.  A thrown `Error` is an `Except.error`; paths are
repository-root relative with forward slashes (`path.join` on the
constant segments).  Note `voteDelay || \x22\x22` on an already trimmed
string is the string itself, so the voteDelay placeholder default is
the trimmed field value with no validation applied. -/
def votesiteBranch (fields : List (String × String)) :
    Except String (List (String × GenFile)) :=
  let domain := normDomain (lookupField fields "Domain (no protocol)")
  let extraDomainsRaw := lookupField fields "Extra domains (comma separated)"
  let presetId := jsTrim (lookupField fields "Preset ID")
  let siteKey := jsTrim (lookupField fields "VoteSite key (siteKey)")
  let displayName := jsTrim (lookupField fields "Display name (displayName)")
  let serviceSite := jsTrim (lookupField fields "ServiceSite (required)")
  let voteUrlDefault :=
    let v := jsTrim (lookupField fields "Default VoteURL placeholder")
    if v = "" then "ADD_VOTE_URL_LATER" else v
  let voteDelay := jsTrim (lookupField fields "VoteDelay (optional)")
  let waitUntil := jsTrim (lookupField fields "WaitUntilVoteDelay (optional)")
  let daily := jsTrim (lookupField fields "VoteDelayDaily (optional)")
  let dailyHour := jsTrim (lookupField fields "VoteDelayDailyHour (optional)")
  if domain = "" then Except.error "Domain is required"
  else if ¬ (strStartsWith presetId "votesite:" = true) then
    Except.error "Preset ID must start with votesite:"
  else if siteKey = "" then Except.error "siteKey is required"
  else if displayName = "" then Except.error "displayName is required"
  else if serviceSite = "" then Except.error "serviceSite is required"
  else
    let domains :=
      if extraDomainsRaw = "" then [domain]
      else (strSplitOn extraDomainsRaw ',').foldl
        (fun acc d =>
          let nd := normDomain d
          if nd ≠ "" ∧ nd ∉ acc then acc ++ [nd] else acc)
        [domain]
    let slug := replaceAll domain '.' '_' 
    let metaPath := "presets/votesites/" ++ slug ++ ".meta.json"
    let meta : VotesiteMeta :=
      { schemaVersion := 1
        id := presetId
        display := ⟨displayName ++ " (generic)",
                    "Generic " ++ displayName ++ " VoteSite preset."⟩
        matchDomains := domains
        matchKeywords := [jsLower siteKey, jsLower displayName]
        placeholders :=
          [("siteKey", ⟨"string", "VoteSite key", siteKey⟩),
           ("displayName", ⟨"string", "VoteSite display name", displayName⟩),
           ("serviceSite", ⟨"string", "ServiceSite", serviceSite⟩),
           ("voteURL", ⟨"string", "Vote URL", voteUrlDefault⟩),
           ("voteDelay", ⟨"string", "VoteDelay (blank = omit)", voteDelay⟩),
           ("waitUntilVoteDelay",
            ⟨"string", "WaitUntilVoteDelay (true/false, blank = omit)",
             if isBoolStr waitUntil then jsLower waitUntil else ""⟩),
           ("voteDelayDaily",
            ⟨"string", "VoteDelayDaily (true/false, blank = omit)",
             if isBoolStr daily then jsLower daily else ""⟩),
           ("voteDelayDailyHour",
            ⟨"string", "VoteDelayDailyHour (0–23, blank = omit)",
             if isIntStr dailyHour then dailyHour else ""⟩)]
        fragments := [⟨"presets/votesites/generic.votesites.yml", "VoteSites"⟩]
        verified := false }
    Except.ok [(metaPath, GenFile.votesiteMeta meta)]

/-- The Reward branch of `main` in
`tools/generate-preset-from-issue.mjs` (lines 186-221). -/
def rewardBranch (fields : List (String × String)) :
    Except String (List (String × GenFile)) :=
  let presetId := jsTrim (lookupField fields "Preset ID")
  let displayName := jsTrim (lookupField fields "Display name")
  let rewardType := jsLower (jsTrim (lookupField fields "Reward type"))
  let lines := jsTrim (lookupField fields "Default lines (one per line)")
  if ¬ (strStartsWith presetId "reward:" = true) then
    Except.error "Preset ID must start with reward:"
  else if displayName = "" then Except.error "display name is required"
  else if rewardType ≠ "commands" ∧ rewardType ≠ "messages" then
    Except.error "Reward type must be commands or messages"
  else if lines = "" then Except.error "Default lines required"
  else
    let slug := replaceAll (replaceAll presetId ':' '_') '/' '_' 
    let metaPath := "presets/rewards/" ++ slug ++ ".meta.json"
    let ymlPath := "presets/rewards/" ++ slug ++ ".rewardblock.yml"
    let blockKey := if rewardType = "commands" then "commandsBlock" else "messagesBlock"
    let headerKey := if rewardType = "commands" then "Commands" else "Messages"
    let placeholderKey := if rewardType = "commands" then "commands" else "messages"
    let meta : RewardMeta :=
      { schemaVersion := 1
        id := presetId
        display := ⟨displayName,
                    "Inline Reward (" ++ rewardType ++ ") merged into VoteSites.<siteKey>.Rewards."⟩
        matchKeywords := ["reward", "inline", rewardType]
        placeholders :=
          [(placeholderKey, ⟨"string", headerKey ++ " (one per line)", lines⟩)]
        fragments := [⟨"presets/rewards/" ++ slug ++ ".rewardblock.yml",
                      "VoteSites.<siteKey>.Rewards"⟩]
        verified := false }
    let yml := headerKey ++ ":\n<" ++ blockKey ++ ">\n"
    Except.ok [(metaPath, GenFile.rewardMeta meta), (ymlPath, GenFile.yml yml)]

/-- JS `a || b` on an optional environment string: the fallback is used
when the variable is absent or empty. -/
def jsOrElse (o : Option String) (d : String) : String :=
  match o with
  | some s => if s = "" then d else s
  | none => d

/-- `main` of `tools/generate-preset-from-issue.mjs`: checks the
presence of the issue-number token, parses the issue body, selects the
kind (the `PRESET_KIND` variable, falling back to a title heuristic)
and dispatches to the matching branch.  `ISSUE_TITLE`/`ISSUE_BODY` are
already defaulted to the empty string by the JS `|| \x22\x22`, so they
are plain strings here.  The returned list is the sequence of file
writes the run performs; the final index rebuild the script triggers is
modelled separately by the index-builder functions below. -/
def generatorMain (issueNumber : Option String) (issueTitle issueBody : String)
    (presetKind : Option String) : Except String (List (String × GenFile)) :=
  if issueNumber = none ∨ issueNumber = some "" then
    Except.error "Missing ISSUE_NUMBER env var"
  else
    let fields := parseIssueForm issueBody
    let kind := jsOrElse presetKind
      (if containsSub (jsLower issueTitle) "reward" then "reward" else "votesite")
    if kind = "votesite" then votesiteBranch fields else rewardBranch fields

/-- The files a generator run leaves on disk: the writes of a
successful run, nothing for an aborted run (every throw in the script
happens before the first write of its branch). -/
def genWrites (r : Except String (List (String × GenFile))) :
    List (String × GenFile) :=
  match r with
  | Except.ok ws => ws
  | Except.error _ => []

/-- A JSON value as parsed from an input document.  JS numbers are
floating point; no analyzed behavior of the index builder inspects a
numeric value, so an integer payload suffices for the model.  Absent
properties are modelled by `Option` on the lookup, which the type
checks of the script treat exactly like the JS `undefined`. -/
inductive Json where
  | null
  | bool (b : Bool)
  | num (n : Int)
  | str (s : String)
  | arr (xs : List Json)
  | obj (kvs : List (String × Json))

/-- Property lookup inside a JSON object list. -/
def jlookup : List (String × Json) → String → Option Json
  | [], _ => none
  | p :: rest, k => if p.1 = k then some p.2 else jlookup rest k

/-- JS optional-chaining property access `j?.k`. -/
def jget (j : Json) (k : String) : Option Json :=
  match j with
  | Json.obj kvs => jlookup kvs k
  | _ => none

/-- The values of a JSON array that are strings (the
`typeof d === "string"` part of the normalization filters). -/
def asStr? (x : Json) : Option String :=
  match x with
  | Json.str s => some s
  | _ => none

/-- First-occurrence deduplication: the JS idiom filtering each element
whose index equals the index of its first occurrence (keep every
element the first time its value appears, in order). -/
def dedupFirst : List String → List String
  | [] => []
  | x :: xs => x :: (dedupFirst xs).filter (fun y => decide (y ≠ x))

/-- `normalizeDomains` from `tools/build-index.mjs`: non-arrays give the
empty list; otherwise drop non-string or blank entries, trim and
lowercase, strip one leading `www.`, deduplicate keeping first
occurrences, and sort ascending (the JS default sort on strings,
modelled as lexicographic order). -/
def normalizeDomains (j : Option Json) : List String :=
  match j with
  | some (Json.arr xs) =>
    let strs := (xs.filterMap asStr?).filter (fun d => decide (jsTrim d ≠ ""))
    let lowered := strs.map (fun d => jsLower (jsTrim d))
    let stripped := lowered.map
      (fun d => if strStartsWith d "www." then strDrop d 4 else d)
    List.insertionSort strLeP (dedupFirst stripped)
  | _ => []

/-- `normalizeKeywords` from `tools/build-index.mjs`: like
`normalizeDomains` but without the `www.` stripping. -/
def normalizeKeywords (j : Option Json) : List String :=
  match j with
  | some (Json.arr xs) =>
    let strs := (xs.filterMap asStr?).filter (fun k => decide (jsTrim k ≠ ""))
    let lowered := strs.map (fun k => jsLower (jsTrim k))
    List.insertionSort strLeP (dedupFirst lowered)
  | _ => []

/-- `inferCategory` from `tools/build-index.mjs`: backslashes are
normalized to slashes, then the category is decided by substring tests
on the path, in source order. -/
def inferCategory (metaPath : String) : String :=
  let p := replaceAll metaPath '\\' '/' 
  if containsSub p "presets/votesites/" then "votesites"
  else if containsSub p "presets/rewards/" then "rewards"
  else if containsSub p "presets/milestones/" then "milestones"
  else if containsSub p "bundles/" then "bundles"
  else "other"

/-- One entry of the generated index document. -/
structure IndexEntry where
  id : String
  category : String
  name : String
  description : String
  keywords : List String
  domains : List String
  metaPath : String
  updatedAt : Option String
  verified : Bool
deriving DecidableEq, Repr

/-- The required-string checks of `toIndexEntry`: present, a string,
and nonempty after trimming. -/
def reqNonEmptyStr (x : Option Json) : Option String :=
  match x with
  | some (Json.str s) => if jsTrim s = "" then none else some s
  | _ => none

/-- `toIndexEntry` from `tools/build-index.mjs` for preset meta files:
fatal when `id` or `display.name` is absent, not a string, or blank;
otherwise the projected entry with path-inferred category and
normalized domain/keyword lists. -/
def toIndexEntry (meta : Json) (relMetaPath : String) : Except String IndexEntry :=
  match reqNonEmptyStr (jget meta "id") with
  | none => Except.error ("Missing/invalid meta.id in " ++ relMetaPath)
  | some id =>
    match reqNonEmptyStr ((jget meta "display").bind (fun d => jget d "name")) with
    | none => Except.error ("Missing/invalid display.name in " ++ relMetaPath)
    | some name =>
      let description :=
        match (jget meta "display").bind (fun d => jget d "description") with
        | some (Json.str s) => s
        | _ => ""
      let domains := normalizeDomains ((jget meta "match").bind (fun m => jget m "domains"))
      let keywords := normalizeKeywords ((jget meta "match").bind (fun m => jget m "keywords"))
      let updatedAt :=
        match jget meta "updatedAt" with
        | some (Json.str s) => if jsTrim s ≠ "" then some s else none
        | _ => none
      let verified :=
        match jget meta "verified" with
        | some (Json.bool true) => true
        | _ => false
      Except.ok
        { id := id
          category := inferCategory relMetaPath
          name := name
          description := description
          keywords := keywords
          domains := domains
          metaPath := replaceAll relMetaPath '\\' '/' 
          updatedAt := updatedAt
          verified := verified }

/-- The bundle branch of `main` in `tools/build-index.mjs` (per file):
fatal when `id` or `display.name` is not a string; the category is the
constant bundles, the domain list is empty, keywords come from the
top-level `keywords` property and `updatedAt` has no blank check. -/
def bundleEntry (meta : Json) (rel : String) : Except String IndexEntry :=
  match jget meta "id", (jget meta "display").bind (fun d => jget d "name") with
  | some (Json.str id), some (Json.str name) =>
    Except.ok
      { id := id
        category := "bundles"
        name := name
        description :=
          match (jget meta "display").bind (fun d => jget d "description") with
          | some (Json.str s) => s
          | _ => ""
        keywords := normalizeKeywords (jget meta "keywords")
        domains := []
        metaPath := replaceAll rel '\\' '/' 
        updatedAt :=
          match jget meta "updatedAt" with
          | some (Json.str s) => some s
          | _ => none
        verified :=
          match jget meta "verified" with
          | some (Json.bool true) => true
          | _ => false }
  | _, _ => Except.error ("Bundle missing id/display.name: " ++ rel)

/-- Dispatch of the per-file loop body in `main` of
`tools/build-index.mjs`: files with the bundle suffix take the bundle
branch, everything else the preset-meta branch.  The suffix test on the
absolute path in the source agrees with the test on the repo-relative
path used here. -/
def processFile (rel : String) (doc : Json) : Except String IndexEntry :=
  if strEndsWith rel ".bundle.json" then bundleEntry doc rel
  else toIndexEntry doc rel

/-- The file loop of `main` in `tools/build-index.mjs`, carrying the
`seenIds` set: each file is projected to an entry, a fatal duplicate-id
error is raised when the entry id was already seen, and entries are
accumulated in file order. -/
def buildLoop (seen : List String) :
    List (String × Json) → Except String (List IndexEntry)
  | [] => Except.ok []
  | (rel, doc) :: rest =>
    match processFile rel doc with
    | Except.error e => Except.error e
    | Except.ok entry =>
      if entry.id ∈ seen then Except.error ("Duplicate id: " ++ entry.id)
      else
        match buildLoop (entry.id :: seen) rest with
        | Except.error e => Except.error e
        | Except.ok es => Except.ok (entry :: es)

/-- The whole per-file pass of `main` in `tools/build-index.mjs` over
the discovered documents (given as repo-relative path and parsed JSON,
in discovery order), starting from an empty `seenIds` set. -/
def runBuild (files : List (String × Json)) : Except String (List IndexEntry) :=
  buildLoop [] files

/-- The category-then-id ordering on entries, instantiated at the
fixed code-point collation.  The source comparator of `sortEntries`
uses `localeCompare`, whose collation is supplied by the environment
(Node's ICU data orders for example the lowercase a before the
uppercase A); `entryLEw` below is the collation-parametric model of
that comparator, and this definition is `entryLEw` at the code-point
collation.  It is used only for claims whose properties do not depend
on which collation the environment provides (the `|| \x22\x22`
fallbacks of the source are identities here because both fields are
always strings in the model). -/
def entryLE (a b : IndexEntry) : Prop :=
  strLtP a.category b.category ∨ (a.category = b.category ∧ strLeP a.id b.id)

instance decEntryLE : DecidableRel entryLE := fun a b => by
  unfold entryLE; infer_instance

/-- `sortEntries` from `tools/build-index.mjs` at the fixed code-point
collation: the stable JS array sort under the category-then-id
comparator, modelled as insertion sort.  `sortEntriesWith` below is
the collation-parametric version; the claims proved over this
instantiation (entry normalization, duplicate abort, run-to-run
determinism) hold for any collation, since they never inspect the
relative order the comparator chooses. -/
def sortEntries (entries : List IndexEntry) : List IndexEntry :=
  List.insertionSort entryLE entries

/-- The generated index document. -/
structure IndexDoc where
  schemaVersion : Nat
  generatedAt : String
  entries : List IndexEntry
deriving DecidableEq, Repr

/-- The tail of `main` in `tools/build-index.mjs`: on success of the
file loop, the index document with constant schema version 1, the
timestamp of the run, and the sorted entries.  Any error of the loop
aborts the run before the document is formed.  The final sort is taken
at the fixed code-point collation; `indexMainWith` below is the
collation-parametric version. -/
def indexMain (files : List (String × Json)) (now : String) :
    Except String IndexDoc :=
  match runBuild files with
  | Except.error e => Except.error e
  | Except.ok entries =>
    Except.ok { schemaVersion := 1, generatedAt := now, entries := sortEntries entries }

/-- The file written by a run of `tools/build-index.mjs`: the script
reaches its single `fs.writeFileSync` of `index.json` only after the
loop has finished without a throw, so an aborted run writes nothing and
leaves any previous index content untouched. -/
def writtenIndex (files : List (String × Json)) (now : String) : Option IndexDoc :=
  (indexMain files now).toOption

/-! ### Lemmas about the JS string model -/

/-- The uppercase ASCII letters. -/
def ucLetters : List Char :=
  ['A', 'B', 'C', 'D', 'E', 'F', 'G', 'H', 'I', 'J', 'K', 'L', 'M',
   'N', 'O', 'P', 'Q', 'R', 'S', 'T', 'U', 'V', 'W', 'X', 'Y', 'Z']

/-- The lowercase ASCII letters. -/
def lcLetters : List Char :=
  ['a', 'b', 'c', 'd', 'e', 'f', 'g', 'h', 'i', 'j', 'k', 'l', 'm',
   'n', 'o', 'p', 'q', 'r', 's', 't', 'u', 'v', 'w', 'x', 'y', 'z']

theorem jsCharLower_eq_or_letter (c : Char) :
    jsCharLower c = c ∨ (c ∈ ucLetters ∧ jsCharLower c ∈ lcLetters) := by
  unfold jsCharLower
  cases h : lowerPairs.find? (fun p => p.1 == c) with
  | none => exact Or.inl rfl
  | some p =>
    refine Or.inr ⟨?_, ?_⟩
    · have hc : p.1 = c := by
        have := List.find?_some h
        simpa using this
      have hmem : p.1 ∈ lowerPairs.map Prod.fst :=
        List.mem_map_of_mem Prod.fst (List.mem_of_find?_eq_some h)
      rw [hc] at hmem
      exact hmem
    · have hmem : p.2 ∈ lowerPairs.map Prod.snd :=
        List.mem_map_of_mem Prod.snd (List.mem_of_find?_eq_some h)
      exact hmem

theorem jsCharLower_of_lc {c : Char} (h : c ∈ lcLetters) :
    jsCharLower c = c := by
  fin_cases h <;> rfl

theorem jsWhitespace_of_uc {c : Char} (h : c ∈ ucLetters) :
    jsWhitespace c = false := by
  fin_cases h <;> rfl

theorem jsWhitespace_of_lc {c : Char} (h : c ∈ lcLetters) :
    jsWhitespace c = false := by
  fin_cases h <;> rfl

theorem jsCharLower_idem (c : Char) :
    jsCharLower (jsCharLower c) = jsCharLower c := by
  rcases jsCharLower_eq_or_letter c with h | ⟨_, h2⟩
  · rw [h, h]
  · exact jsCharLower_of_lc h2

theorem jsWhitespace_jsCharLower (c : Char) :
    jsWhitespace (jsCharLower c) = jsWhitespace c := by
  rcases jsCharLower_eq_or_letter c with h | ⟨h1, h2⟩
  · rw [h]
  · rw [jsWhitespace_of_uc h1, jsWhitespace_of_lc h2]

theorem jsLower_idem (s : String) : jsLower (jsLower s) = jsLower s := by
  unfold jsLower
  simp only [List.map_map]
  exact congrArg String.mk (List.map_congr_left (fun c _ => jsCharLower_idem c))

theorem dropWhile_head_false {p : Char → Bool} (l : List Char) :
    ∀ {c : Char} {t : List Char}, l.dropWhile p = c :: t → p c = false := by
  induction l with
  | nil => intro c t h; simp at h
  | cons a l ih =>
    intro c t h
    rw [List.dropWhile_cons] at h
    by_cases ha : p a = true
    · rw [if_pos ha] at h
      exact ih h
    · rw [if_neg ha] at h
      cases h
      simpa using ha

theorem dropWhile_eq_self_of {p : Char → Bool} {c : Char} {t : List Char}
    (h : p c = false) : (c :: t).dropWhile p = c :: t := by
  rw [List.dropWhile_cons, if_neg (by simp [h])]

theorem dropWhile_trimChars (l : List Char) :
    List.dropWhile jsWhitespace (trimChars l) = trimChars l := by
  cases h : trimChars l with
  | nil => rfl
  | cons c t =>
    have hpre : (c :: t) <+: List.dropWhile jsWhitespace l := by
      rw [← h]
      exact List.rdropWhile_prefix _ _
    obtain ⟨r, hr⟩ := hpre
    have hd : List.dropWhile jsWhitespace l = c :: (t ++ r) := by
      rw [← hr]
      rfl
    exact dropWhile_eq_self_of (dropWhile_head_false l hd)

theorem trimChars_idem (l : List Char) :
    trimChars (trimChars l) = trimChars l := by
  show List.rdropWhile jsWhitespace (List.dropWhile jsWhitespace (trimChars l)) = trimChars l
  rw [dropWhile_trimChars]
  show List.rdropWhile jsWhitespace
    (List.rdropWhile jsWhitespace (List.dropWhile jsWhitespace l)) = _
  rw [List.rdropWhile_idempotent]
  rfl

theorem jsWhitespace_comp_jsCharLower :
    jsWhitespace ∘ jsCharLower = jsWhitespace :=
  funext jsWhitespace_jsCharLower

theorem trimChars_map_lower (l : List Char) :
    trimChars (l.map jsCharLower) = (trimChars l).map jsCharLower := by
  unfold trimChars List.rdropWhile
  rw [List.dropWhile_map, jsWhitespace_comp_jsCharLower]
  rw [← List.map_reverse, List.dropWhile_map, jsWhitespace_comp_jsCharLower]
  rw [← List.map_reverse]

theorem jsTrim_idem (s : String) : jsTrim (jsTrim s) = jsTrim s := by
  unfold jsTrim
  exact congrArg String.mk (trimChars_idem s.data)

theorem jsTrim_jsLower (s : String) :
    jsTrim (jsLower s) = jsLower (jsTrim s) := by
  unfold jsTrim jsLower
  exact congrArg String.mk (trimChars_map_lower s.data)

theorem keyword_fixpoints (k0 : String) :
    jsTrim (jsLower (jsTrim k0)) = jsLower (jsTrim k0) ∧
    jsLower (jsLower (jsTrim k0)) = jsLower (jsTrim k0) := by
  constructor
  · rw [jsTrim_jsLower, jsTrim_idem]
  · exact jsLower_idem _

theorem data_jsLower (s : String) : (jsLower s).data = s.data.map jsCharLower := rfl

theorem jsLower_strDrop {s : String} {n : Nat} (h : jsLower s = s) :
    jsLower (strDrop s n) = strDrop s n := by
  unfold jsLower strDrop
  apply congrArg String.mk
  have hd : s.data.map jsCharLower = s.data := congrArg String.data h
  rw [List.map_drop, hd]

theorem trimChars_sublist (l : List Char) : (trimChars l).Sublist l :=
  ((List.rdropWhile_prefix _ _).sublist).trans (List.dropWhile_sublist _)

/-! ### Lemmas about the index-builder normalizations -/

theorem dedupFirst_subset (l : List String) : dedupFirst l ⊆ l := by
  induction l with
  | nil => simp [dedupFirst]
  | cons x xs ih =>
    rw [dedupFirst]
    intro a ha
    rcases List.mem_cons.mp ha with rfl | ha
    · exact List.mem_cons_self _ _
    · exact List.mem_cons_of_mem _ (ih ((List.filter_sublist _).subset ha))

theorem dedupFirst_nodup (l : List String) : (dedupFirst l).Nodup := by
  induction l with
  | nil => simp [dedupFirst]
  | cons x xs ih =>
    rw [dedupFirst]
    refine List.nodup_cons.mpr ⟨?_, ih.filter _⟩
    intro hx
    have := List.of_mem_filter hx
    simp at this

theorem sortPerm_mem {α : Type} {r : α → α → Prop} [DecidableRel r]
    {l : List α} {v : α} (h : v ∈ List.insertionSort r l) : v ∈ l :=
  (List.perm_insertionSort r l).mem_iff.mp h

theorem sortPerm_nodup {α : Type} {r : α → α → Prop} [DecidableRel r]
    {l : List α} (h : l.Nodup) : (List.insertionSort r l).Nodup :=
  ((List.perm_insertionSort r l).nodup_iff).mpr h

theorem normalizeDomains_nodup (j : Option Json) :
    (normalizeDomains j).Nodup := by
  cases j with
  | none => exact List.nodup_nil
  | some val =>
    cases val
    all_goals try exact List.nodup_nil
    exact sortPerm_nodup (dedupFirst_nodup _)

theorem normalizeDomains_lower (j : Option Json) :
    ∀ v ∈ normalizeDomains j, jsLower v = v := by
  cases j with
  | none => intro v hv; exact absurd hv (List.not_mem_nil v)
  | some val =>
    cases val
    all_goals try (intro v hv; exact absurd hv (List.not_mem_nil v))
    intro v hv
    have hv2 := dedupFirst_subset _ (sortPerm_mem hv)
    obtain ⟨w, hw, rfl⟩ := List.mem_map.mp hv2
    obtain ⟨d, _, rfl⟩ := List.mem_map.mp hw
    by_cases hs : strStartsWith (jsLower (jsTrim d)) "www." = true
    · show jsLower (if strStartsWith (jsLower (jsTrim d)) "www." = true
        then strDrop (jsLower (jsTrim d)) 4 else jsLower (jsTrim d)) = _
      rw [if_pos hs]
      exact jsLower_strDrop (jsLower_idem _)
    · show jsLower (if strStartsWith (jsLower (jsTrim d)) "www." = true
        then strDrop (jsLower (jsTrim d)) 4 else jsLower (jsTrim d)) = _
      rw [if_neg hs]
      exact jsLower_idem _

theorem normalizeKeywords_nodup (j : Option Json) :
    (normalizeKeywords j).Nodup := by
  cases j with
  | none => exact List.nodup_nil
  | some val =>
    cases val
    all_goals try exact List.nodup_nil
    exact sortPerm_nodup (dedupFirst_nodup _)

theorem normalizeKeywords_fixed (j : Option Json) :
    ∀ k ∈ normalizeKeywords j, jsTrim k = k ∧ jsLower k = k := by
  cases j with
  | none => intro k hk; exact absurd hk (List.not_mem_nil k)
  | some val =>
    cases val
    all_goals try (intro k hk; exact absurd hk (List.not_mem_nil k))
    intro k hk
    have hk2 := dedupFirst_subset _ (sortPerm_mem hk)
    obtain ⟨d, _, rfl⟩ := List.mem_map.mp hk2
    exact keyword_fixpoints d

/-! ### Lemmas about the index-builder file loop -/

theorem buildLoop_entries_from :
    ∀ (files : List (String × Json)) (seen : List String)
      (entries : List IndexEntry),
      buildLoop seen files = Except.ok entries →
      ∀ e ∈ entries, ∃ rel doc,
        (rel, doc) ∈ files ∧ processFile rel doc = Except.ok e := by
  intro files
  induction files with
  | nil =>
    intro seen entries h e he
    simp only [buildLoop] at h
    cases h
    exact absurd he (List.not_mem_nil e)
  | cons f rest ih =>
    intro seen entries h e he
    obtain ⟨rel, doc⟩ := f
    cases hp : processFile rel doc with
    | error err =>
      simp only [buildLoop, hp] at h
      simp at h
    | ok entry =>
      simp only [buildLoop, hp] at h
      by_cases hm : entry.id ∈ seen
      · rw [if_pos hm] at h
        cases h
      · rw [if_neg hm] at h
        cases hr : buildLoop (entry.id :: seen) rest with
        | error err => rw [hr] at h; cases h
        | ok es =>
          rw [hr] at h
          cases h
          rcases List.mem_cons.mp he with rfl | he2
          · exact ⟨rel, doc, List.mem_cons_self _ _, hp⟩
          · obtain ⟨r, d, hmem, hpd⟩ := ih _ _ hr e he2
            exact ⟨r, d, List.mem_cons_of_mem _ hmem, hpd⟩

theorem buildLoop_error_of_seen :
    ∀ (mid post : List (String × Json)) (seen : List String)
      (r2 : String) (d2 : Json) (e2 : IndexEntry),
      processFile r2 d2 = Except.ok e2 → e2.id ∈ seen →
      ∃ err, buildLoop seen (mid ++ (r2, d2) :: post) = Except.error err := by
  intro mid
  induction mid with
  | nil =>
    intro post seen r2 d2 e2 h2 hmem
    refine ⟨"Duplicate id: " ++ e2.id, ?_⟩
    simp only [List.nil_append, buildLoop, h2, List.append_eq]
    rw [if_pos hmem]
  | cons f mid' ih =>
    intro post seen r2 d2 e2 h2 hmem
    obtain ⟨rel, doc⟩ := f
    cases hp : processFile rel doc with
    | error err =>
      refine ⟨err, ?_⟩
      simp only [List.cons_append, buildLoop, hp, List.append_eq]
    | ok entry =>
      by_cases hm : entry.id ∈ seen
      · refine ⟨"Duplicate id: " ++ entry.id, ?_⟩
        simp only [List.cons_append, buildLoop, hp, List.append_eq]
        rw [if_pos hm]
      · obtain ⟨err, herr⟩ := ih post (entry.id :: seen) r2 d2 e2 h2
          (List.mem_cons_of_mem _ hmem)
        refine ⟨err, ?_⟩
        simp only [List.cons_append, buildLoop, hp, List.append_eq]
        rw [if_neg hm, herr]

theorem buildLoop_error_of_dup :
    ∀ (pre mid post : List (String × Json)) (seen : List String)
      (r1 r2 : String) (d1 d2 : Json) (e1 e2 : IndexEntry),
      processFile r1 d1 = Except.ok e1 → processFile r2 d2 = Except.ok e2 →
      e1.id = e2.id →
      ∃ err, buildLoop seen (pre ++ (r1, d1) :: mid ++ (r2, d2) :: post) =
        Except.error err := by
  intro pre
  induction pre with
  | nil =>
    intro mid post seen r1 r2 d1 d2 e1 e2 h1 h2 hid
    by_cases hm : e1.id ∈ seen
    · refine ⟨"Duplicate id: " ++ e1.id, ?_⟩
      simp only [List.nil_append, buildLoop, h1, List.append_eq]
      rw [if_pos hm]
    · obtain ⟨err, herr⟩ := buildLoop_error_of_seen mid post (e1.id :: seen)
        r2 d2 e2 h2 (by rw [← hid]; exact List.mem_cons_self _ _)
      refine ⟨err, ?_⟩
      simp only [List.nil_append, buildLoop, h1, List.append_eq]
      rw [if_neg hm, herr]
  | cons f pre' ih =>
    intro mid post seen r1 r2 d1 d2 e1 e2 h1 h2 hid
    obtain ⟨rel, doc⟩ := f
    cases hp : processFile rel doc with
    | error err =>
      refine ⟨err, ?_⟩
      simp only [List.cons_append, buildLoop, hp, List.append_eq]
    | ok entry =>
      by_cases hm : entry.id ∈ seen
      · refine ⟨"Duplicate id: " ++ entry.id, ?_⟩
        simp only [List.cons_append, buildLoop, hp, List.append_eq]
        rw [if_pos hm]
      · obtain ⟨err, herr⟩ := ih mid post (entry.id :: seen) r1 r2 d1 d2 e1 e2
          h1 h2 hid
        refine ⟨err, ?_⟩
        simp only [List.cons_append, buildLoop, hp, List.append_eq]
        rw [if_neg hm, herr]

theorem listLtB_irrefl (l : List Char) : listLtB l l = false := by
  induction l with
  | nil => rfl
  | cons a as ih =>
    unfold listLtB
    rw [if_neg (lt_irrefl a), if_neg (lt_irrefl a)]
    exact ih

theorem listLtB_trans :
    ∀ {l1 l2 l3 : List Char}, listLtB l1 l2 = true → listLtB l2 l3 = true →
      listLtB l1 l3 = true := by
  intro l1
  induction l1 with
  | nil =>
    intro l2 l3 h12 h23
    cases l2 with
    | nil => exact absurd h12 (by simp [listLtB])
    | cons b bs =>
      cases l3 with
      | nil => exact absurd h23 (by simp [listLtB])
      | cons c cs => rfl
  | cons a as ih =>
    intro l2 l3 h12 h23
    cases l2 with
    | nil => exact absurd h12 (by simp [listLtB])
    | cons b bs =>
      cases l3 with
      | nil => exact absurd h23 (by simp [listLtB])
      | cons c cs =>
        unfold listLtB at h12 h23 ⊢
        by_cases hab : a < b
        · rw [if_pos hab] at h12
          by_cases hbc : b < c
          · rw [if_pos (hab.trans hbc)]
          · rw [if_neg hbc] at h23
            by_cases hcb : c < b
            · rw [if_pos hcb] at h23
              cases h23
            · have hbca : b = c := le_antisymm (not_lt.mp hcb) (not_lt.mp hbc)
              rw [if_pos (hbca ▸ hab)]
        · rw [if_neg hab] at h12
          by_cases hba : b < a
          · rw [if_pos hba] at h12
            cases h12
          · have haba : a = b := le_antisymm (not_lt.mp hba) (not_lt.mp hab)
            by_cases hbc : b < c
            · rw [if_pos (haba ▸ hbc)]
            · rw [if_neg hbc] at h23
              by_cases hcb : c < b
              · rw [if_pos hcb] at h23
                cases h23
              · have hbcb : b = c := le_antisymm (not_lt.mp hcb) (not_lt.mp hbc)
                rw [if_neg hba] at h12
                rw [if_neg hcb] at h23
                rw [if_neg (by rw [haba, hbcb]; exact lt_irrefl c),
                    if_neg (by rw [haba, hbcb]; exact lt_irrefl c)]
                exact ih h12 h23

theorem listLtB_eq_of_not :
    ∀ {l1 l2 : List Char}, listLtB l1 l2 = false → listLtB l2 l1 = false →
      l1 = l2 := by
  intro l1
  induction l1 with
  | nil =>
    intro l2 h12 _
    cases l2 with
    | nil => rfl
    | cons b bs => exact absurd h12 (by simp [listLtB])
  | cons a as ih =>
    intro l2 h12 h21
    cases l2 with
    | nil => exact absurd h21 (by simp [listLtB])
    | cons b bs =>
      unfold listLtB at h12 h21
      by_cases hab : a < b
      · rw [if_pos hab] at h12
        cases h12
      · by_cases hba : b < a
        · rw [if_pos hba] at h21
          cases h21
        · rw [if_neg hab, if_neg hba] at h12
          rw [if_neg hba, if_neg hab] at h21
          have : a = b := le_antisymm (not_lt.mp hba) (not_lt.mp hab)
          rw [this, ih h12 h21]

theorem strExt : ∀ {a b : String}, a.data = b.data → a = b := by
  intro a b h
  cases a
  cases b
  cases h
  rfl

theorem listLtB_asymm {l1 l2 : List Char} (h : listLtB l1 l2 = true) :
    listLtB l2 l1 = false := by
  by_contra hc
  have h21 : listLtB l2 l1 = true := by
    cases hx : listLtB l2 l1
    · exact absurd hx hc
    · rfl
  have := listLtB_trans h h21
  rw [listLtB_irrefl] at this
  cases this

/-! ### Spec-side definitions and example documents -/

/-- The category rule exactly as claim C3 words it: the three preset
path cases, and `other` for every other preset meta path.  Written from
the claim, for comparison with the code's `inferCategory`. -/
def specCategoryClaimed (rel : String) : String :=
  let p := replaceAll rel '\\' '/' 
  if containsSub p "presets/votesites/" then "votesites"
  else if containsSub p "presets/rewards/" then "rewards"
  else if containsSub p "presets/milestones/" then "milestones"
  else "other"

/-- The category rule of the amended claim C3: as claimed, plus the
additional case the code has — a preset meta path that matches none of
the three preset segments but contains a `bundles/` segment is
categorized `bundles`, not `other`.  Written from the amended claim's
words. -/
def specCategoryAmended (rel : String) : String :=
  let p := replaceAll rel '\\' '/' 
  if containsSub p "presets/votesites/" then "votesites"
  else if containsSub p "presets/rewards/" then "rewards"
  else if containsSub p "presets/milestones/" then "milestones"
  else if containsSub p "bundles/" then "bundles"
  else "other"

/-- The normal form claim C4 asserts for every produced domain value:
its own trimmed, lowercased, `www.`-stripped form. -/
def domainNormalForm (d : String) : String :=
  let t := jsLower (jsTrim d)
  if strStartsWith t "www." then strDrop t 4 else t

/-- A minimal well-formed preset meta document used as a concrete
input. -/
def exMetaJson : Json :=
  Json.obj [("id", Json.str "x"),
            ("display", Json.obj [("name", Json.str "X")])]

/-- The index entry `exMetaJson` projects to at a given path and
category. -/
def exEntryAt (rel cat : String) : IndexEntry :=
  { id := "x", category := cat, name := "X", description := "",
    keywords := [], domains := [], metaPath := rel, updatedAt := none,
    verified := false }

/-- A minimal well-formed bundle document used as a concrete input. -/
def exBundleJson : Json :=
  Json.obj [("id", Json.str "b"),
            ("display", Json.obj [("name", Json.str "B")])]

/-- The index entry `exBundleJson` projects to at a given path. -/
def exBundleEntryAt (rel : String) : IndexEntry :=
  { id := "b", category := "bundles", name := "B", description := "",
    keywords := [], domains := [], metaPath := rel, updatedAt := none,
    verified := false }

/-! ### Claim C1 -/

/-- C1: the spec claims the Preset Generator never overwrites an
existing metadata or fragment file.  The code's `writeFile` carries a
doc comment with the same create-only intent, but its body calls
`fs.writeFileSync` unconditionally, so on a filesystem already holding
the target path the existing content is replaced.  This theorem
evaluates the code at such a failing input: the path exists with
content old, and after the write it holds new. -/
theorem writeFile_overwrites_existing :
    lookupStr [("presets/votesites/example_com.meta.json", "old")]
        "presets/votesites/example_com.meta.json" = some "old" ∧
    writeFile [("presets/votesites/example_com.meta.json", "old")]
        "presets/votesites/example_com.meta.json" "new" =
      [("presets/votesites/example_com.meta.json", "new")] ∧
    ("new" : String) ≠ "old" := by
  refine ⟨rfl, rfl, ?_⟩
  decide

/-! ### Claim C3 -/

/-- C3 (amended): the category of a preset meta file's index entry is
derived solely from its relative path — `presets/votesites/` gives
`votesites`, `presets/rewards/` gives `rewards`, `presets/milestones/`
gives `milestones`, then (the case the original claim misses) a path
containing `bundles/` gives `bundles`, and every other path gives
`other`; bundle files get category `bundles` unconditionally. -/
theorem category_from_path :
    (∀ meta rel e, toIndexEntry meta rel = Except.ok e →
        e.category = specCategoryAmended rel) ∧
    (∀ meta rel e, bundleEntry meta rel = Except.ok e →
        e.category = "bundles") := by
  constructor
  · intro meta rel e h
    unfold toIndexEntry at h
    split at h
    · exact Except.noConfusion h
    · split at h
      · exact Except.noConfusion h
      · cases h
        rfl
  · intro meta rel e h
    unfold bundleEntry at h
    split at h
    · cases h
      rfl
    · exact Except.noConfusion h

/-- C3 witness: the amended rule applied to two concrete documents, a
preset meta file under a `bundles/` subdirectory of the presets root
and a real bundle file. -/
theorem category_from_path_witness :
    (exEntryAt "presets/bundles/foo.meta.json" "bundles").category =
      specCategoryAmended "presets/bundles/foo.meta.json" ∧
    (exBundleEntryAt "bundles/b.bundle.json").category = "bundles" :=
  ⟨category_from_path.1 exMetaJson "presets/bundles/foo.meta.json" _ rfl,
   category_from_path.2 exBundleJson "bundles/b.bundle.json" _ rfl⟩

/-- C3 counterexample: a preset meta file stored at
`presets/bundles/foo.meta.json` matches none of the three preset
segments, so the claim as stated assigns it category `other`; the code
assigns `bundles` because of the extra `bundles/` test in
`inferCategory`. -/
theorem category_claim_cex :
    toIndexEntry exMetaJson "presets/bundles/foo.meta.json" =
      Except.ok (exEntryAt "presets/bundles/foo.meta.json" "bundles") ∧
    specCategoryClaimed "presets/bundles/foo.meta.json" = "other" ∧
    ("bundles" : String) ≠ "other" := by
  refine ⟨rfl, rfl, ?_⟩
  decide

/-! ### Claim C2 -/

/-- The placeholder map predicted by the amended claim C2, written from
the amended claim's words: exactly the eight named slots; the first
four carry the trimmed key, name, service-site and vote-URL values (the
vote URL falling back to a fixed marker when blank); `voteDelay` keeps
the trimmed supplied value with no validation at all; the two boolean
slots keep the lowercased supplied value only when its trimmed
lowercase form is true or false and are blank otherwise; the hour slot
keeps the trimmed supplied value only when it is a digit run and is
blank otherwise. -/
def claimedPlaceholders (fields : List (String × String)) :
    List (String × Placeholder) :=
  let siteKey := jsTrim (lookupField fields "VoteSite key (siteKey)")
  let displayName := jsTrim (lookupField fields "Display name (displayName)")
  let serviceSite := jsTrim (lookupField fields "ServiceSite (required)")
  let voteUrlDefault :=
    let v := jsTrim (lookupField fields "Default VoteURL placeholder")
    if v = "" then "ADD_VOTE_URL_LATER" else v
  let voteDelay := jsTrim (lookupField fields "VoteDelay (optional)")
  let waitUntil := jsTrim (lookupField fields "WaitUntilVoteDelay (optional)")
  let daily := jsTrim (lookupField fields "VoteDelayDaily (optional)")
  let dailyHour := jsTrim (lookupField fields "VoteDelayDailyHour (optional)")
  [("siteKey", ⟨"string", "VoteSite key", siteKey⟩),
   ("displayName", ⟨"string", "VoteSite display name", displayName⟩),
   ("serviceSite", ⟨"string", "ServiceSite", serviceSite⟩),
   ("voteURL", ⟨"string", "Vote URL", voteUrlDefault⟩),
   ("voteDelay", ⟨"string", "VoteDelay (blank = omit)", voteDelay⟩),
   ("waitUntilVoteDelay",
    ⟨"string", "WaitUntilVoteDelay (true/false, blank = omit)",
     if isBoolStr waitUntil then jsLower waitUntil else ""⟩),
   ("voteDelayDaily",
    ⟨"string", "VoteDelayDaily (true/false, blank = omit)",
     if isBoolStr daily then jsLower daily else ""⟩),
   ("voteDelayDailyHour",
    ⟨"string", "VoteDelayDailyHour (0–23, blank = omit)",
     if isIntStr dailyHour then dailyHour else ""⟩)]

/-- C2 (amended): every successful VoteSite generation produces a
metadata document whose placeholder map has exactly the eight fixed
named slots with the defaults described by `claimedPlaceholders`; in
particular the boolean and hour slots are validated as the claim
states, but the `voteDelay` slot is not validated and keeps whatever
trimmed value was supplied. -/
theorem votesite_placeholders_amended (fields : List (String × String))
    (out : List (String × GenFile)) (p : String) (m : VotesiteMeta)
    (hok : votesiteBranch fields = Except.ok out)
    (hmem : (p, GenFile.votesiteMeta m) ∈ out) :
    m.placeholders = claimedPlaceholders fields := by
  simp only [votesiteBranch] at hok
  split at hok
  · exact Except.noConfusion hok
  split at hok
  · exact Except.noConfusion hok
  split at hok
  · exact Except.noConfusion hok
  split at hok
  · exact Except.noConfusion hok
  split at hok
  · exact Except.noConfusion hok
  cases hok
  rw [List.mem_singleton] at hmem
  injection hmem with hp hm
  injection hm with hmeta
  subst hmeta
  rfl

/-- The concrete VoteSite field map of the C2 counterexample: all
required fields valid, and a `VoteDelay` value that is neither a
boolean string nor an integer string. -/
def c2Fields : List (String × String) :=
  [("Domain (no protocol)", "example.com"),
   ("Preset ID", "votesite:example"),
   ("VoteSite key (siteKey)", "Example"),
   ("Display name (displayName)", "Example Site"),
   ("ServiceSite (required)", "ExampleService"),
   ("VoteDelay (optional)", "abc")]

/-- The metadata document the generator produces for `c2Fields`. -/
def c2Meta : VotesiteMeta :=
  { schemaVersion := 1
    id := "votesite:example"
    display := ⟨"Example Site (generic)", "Generic Example Site VoteSite preset."⟩
    matchDomains := ["example.com"]
    matchKeywords := ["example", "example site"]
    placeholders :=
      [("siteKey", ⟨"string", "VoteSite key", "Example"⟩),
       ("displayName", ⟨"string", "VoteSite display name", "Example Site"⟩),
       ("serviceSite", ⟨"string", "ServiceSite", "ExampleService"⟩),
       ("voteURL", ⟨"string", "Vote URL", "ADD_VOTE_URL_LATER"⟩),
       ("voteDelay", ⟨"string", "VoteDelay (blank = omit)", "abc"⟩),
       ("waitUntilVoteDelay",
        ⟨"string", "WaitUntilVoteDelay (true/false, blank = omit)", ""⟩),
       ("voteDelayDaily",
        ⟨"string", "VoteDelayDaily (true/false, blank = omit)", ""⟩),
       ("voteDelayDailyHour",
        ⟨"string", "VoteDelayDailyHour (0–23, blank = omit)", ""⟩)]
    fragments := [⟨"presets/votesites/generic.votesites.yml", "VoteSites"⟩]
    verified := false }

/-- C2 counterexample: the supplied `VoteDelay` value abc matches
neither the boolean-string nor the integer-string form, so the claim as
stated requires the `voteDelay` default to be empty; the code keeps
abc because it applies no validation to that slot. -/
theorem votesite_voteDelay_unvalidated_cex :
    votesiteBranch c2Fields =
      Except.ok [("presets/votesites/example_com.meta.json",
                  GenFile.votesiteMeta c2Meta)] ∧
    lookupStr (c2Meta.placeholders.map (fun q => (q.1, q.2.default)))
      "voteDelay" = some "abc" ∧
    isBoolStr "abc" = false ∧ isIntStr "abc" = false ∧
    ("abc" : String) ≠ "" := by
  refine ⟨rfl, rfl, rfl, rfl, ?_⟩
  decide

/-- C2 witness: the amended placeholder description evaluated at the
concrete field map `c2Fields`. -/
theorem votesite_placeholders_amended_witness :
    votesiteBranch c2Fields =
      Except.ok [("presets/votesites/example_com.meta.json",
                  GenFile.votesiteMeta c2Meta)] ∧
    c2Meta.placeholders = claimedPlaceholders c2Fields :=
  ⟨rfl, votesite_placeholders_amended c2Fields
    [("presets/votesites/example_com.meta.json", GenFile.votesiteMeta c2Meta)]
    "presets/votesites/example_com.meta.json" c2Meta rfl
    (List.mem_singleton.mpr rfl)⟩

/-! ### Claim C5 -/

/-- C5: whenever the discovered document list contains two files (of
either kind) whose projected entries share an id, the whole run aborts
with a fatal error and the index file is not written: any partial
entries accumulated before the duplicate are discarded with the run,
and the previous index content stays untouched (`writtenIndex` is the
file produced by a run, with none meaning no write happened). -/
theorem duplicate_id_aborts (pre mid post : List (String × Json))
    (r1 r2 now : String) (d1 d2 : Json) (e1 e2 : IndexEntry)
    (h1 : processFile r1 d1 = Except.ok e1)
    (h2 : processFile r2 d2 = Except.ok e2)
    (hid : e1.id = e2.id) :
    (∃ err, indexMain (pre ++ (r1, d1) :: mid ++ (r2, d2) :: post) now =
      Except.error err) ∧
    writtenIndex (pre ++ (r1, d1) :: mid ++ (r2, d2) :: post) now = none := by
  obtain ⟨err, herr⟩ :=
    buildLoop_error_of_dup pre mid post [] r1 r2 d1 d2 e1 e2 h1 h2 hid
  have hmain : indexMain (pre ++ (r1, d1) :: mid ++ (r2, d2) :: post) now =
      Except.error err := by
    unfold indexMain runBuild
    rw [herr]
  refine ⟨⟨err, hmain⟩, ?_⟩
  unfold writtenIndex
  rw [hmain]
  rfl

/-- C5 witness: two concrete meta documents with the same id abort the
build and no index file is produced. -/
theorem duplicate_id_aborts_witness :
    writtenIndex [("presets/votesites/a.meta.json", exMetaJson),
                  ("presets/rewards/b.meta.json", exMetaJson)] "T" = none :=
  (duplicate_id_aborts [] [] [] "presets/votesites/a.meta.json"
    "presets/rewards/b.meta.json" "T" exMetaJson exMetaJson
    (exEntryAt "presets/votesites/a.meta.json" "votesites")
    (exEntryAt "presets/rewards/b.meta.json" "rewards") rfl rfl rfl).2

/-! ### Claim C6 -/

/-- The comparator of `sortEntries` in `tools/build-index.mjs` for an
abstract collation.  The source compares with `localeCompare`, whose
order is whatever collation the environment provides (Node's ICU data,
for instance, orders the lowercase a before the uppercase A, which is
not code-point order), so the model takes the string comparison `cmp`
as a parameter: entry A sorts no later than B when the category
comparison is negative, or it is zero and the id comparison is not
positive. -/
def entryLEw (cmp : String → String → Ordering) (a b : IndexEntry) : Prop :=
  cmp a.category b.category = Ordering.lt ∨
  (cmp a.category b.category = Ordering.eq ∧ ¬ cmp a.id b.id = Ordering.gt)

instance decEntryLEw (cmp : String → String → Ordering) :
    DecidableRel (entryLEw cmp) := fun a b => by
  unfold entryLEw; infer_instance

/-- `sortEntries` from `tools/build-index.mjs` under an abstract
collation (see `entryLEw`): the stable JS array sort, modelled as
insertion sort. -/
def sortEntriesWith (cmp : String → String → Ordering)
    (entries : List IndexEntry) : List IndexEntry :=
  List.insertionSort (entryLEw cmp) entries

/-- `indexMain` with the collation of `localeCompare` as a parameter:
identical to `indexMain` except that the final sort compares strings
with the given `cmp`. -/
def indexMainWith (cmp : String → String → Ordering)
    (files : List (String × Json)) (now : String) :
    Except String IndexDoc :=
  match runBuild files with
  | Except.error e => Except.error e
  | Except.ok entries =>
    Except.ok { schemaVersion := 1, generatedAt := now,
                entries := sortEntriesWith cmp entries }

/-- C6 (amended): in every produced index document, whenever entry A
precedes entry B, the comparator the code uses judges A no later than
B — the category comparison is negative, or it is zero and the id
comparison is not positive — for any consistent collation `cmp` the
environment may provide for `localeCompare` (consistent meaning that
swapping the arguments flips the sign and that the reported relations
compose transitively; every ICU collation satisfies this).  The
original claim's reading of the order as plain ascending lexicographic
(code-point) comparison is refuted separately: ICU orders the
lowercase a before the uppercase A. -/
theorem index_sorted_locale (cmp : String → String → Ordering)
    (hsymm : ∀ a b, cmp a b = (cmp b a).swap)
    (hltlt : ∀ a b c, cmp a b = Ordering.lt → cmp b c = Ordering.lt →
      cmp a c = Ordering.lt)
    (hlteq : ∀ a b c, cmp a b = Ordering.lt → cmp b c = Ordering.eq →
      cmp a c = Ordering.lt)
    (heqlt : ∀ a b c, cmp a b = Ordering.eq → cmp b c = Ordering.lt →
      cmp a c = Ordering.lt)
    (heqeq : ∀ a b c, cmp a b = Ordering.eq → cmp b c = Ordering.eq →
      cmp a c = Ordering.eq)
    (files : List (String × Json)) (now : String) (doc : IndexDoc)
    (h : indexMainWith cmp files now = Except.ok doc) :
    doc.entries.Pairwise (fun a b =>
      cmp a.category b.category = Ordering.lt ∨
      (cmp a.category b.category = Ordering.eq ∧
        ¬ cmp a.id b.id = Ordering.gt)) := by
  haveI htotal : IsTotal IndexEntry (entryLEw cmp) := ⟨by
    intro a b
    unfold entryLEw
    cases h1 : cmp a.category b.category with
    | lt => exact Or.inl (Or.inl rfl)
    | eq =>
      have h1s : cmp b.category a.category = Ordering.eq := by
        rw [hsymm b.category a.category, h1]
        rfl
      cases h2 : cmp a.id b.id with
      | lt => exact Or.inl (Or.inr ⟨rfl, by simp⟩)
      | eq => exact Or.inl (Or.inr ⟨rfl, by simp⟩)
      | gt =>
        have h2s : cmp b.id a.id = Ordering.lt := by
          rw [hsymm b.id a.id, h2]
          rfl
        exact Or.inr (Or.inr ⟨h1s, by simp [h2s]⟩)
    | gt =>
      have h1s : cmp b.category a.category = Ordering.lt := by
        rw [hsymm b.category a.category, h1]
        rfl
      exact Or.inr (Or.inl h1s)⟩
  haveI htrans : IsTrans IndexEntry (entryLEw cmp) := ⟨by
    intro a b c hab hbc
    unfold entryLEw at hab hbc ⊢
    rcases hab with h1 | ⟨h1, h1'⟩ <;> rcases hbc with h2 | ⟨h2, h2'⟩
    · exact Or.inl (hltlt _ _ _ h1 h2)
    · exact Or.inl (hlteq _ _ _ h1 h2)
    · exact Or.inl (heqlt _ _ _ h1 h2)
    · refine Or.inr ⟨heqeq _ _ _ h1 h2, ?_⟩
      intro hg
      cases hx : cmp a.id b.id with
      | gt => exact h1' hx
      | lt =>
        cases hy : cmp b.id c.id with
        | gt => exact h2' hy
        | lt =>
          rw [hltlt _ _ _ hx hy] at hg
          exact Ordering.noConfusion hg
        | eq =>
          rw [hlteq _ _ _ hx hy] at hg
          exact Ordering.noConfusion hg
      | eq =>
        cases hy : cmp b.id c.id with
        | gt => exact h2' hy
        | lt =>
          rw [heqlt _ _ _ hx hy] at hg
          exact Ordering.noConfusion hg
        | eq =>
          rw [heqeq _ _ _ hx hy] at hg
          exact Ordering.noConfusion hg⟩
  unfold indexMainWith at h
  cases hr : runBuild files with
  | error e =>
    rw [hr] at h
    exact Except.noConfusion h
  | ok es =>
    simp only [hr] at h
    cases h
    exact List.sorted_insertionSort (entryLEw cmp) es

/-- Plain code-point order presented as a comparator: one concrete
consistent collation, used to instantiate the sortedness theorem in
its witness. -/
def codePointCmp (a b : String) : Ordering :=
  if listLtB a.data b.data then Ordering.lt
  else if listLtB b.data a.data then Ordering.gt
  else Ordering.eq

theorem codePointCmp_symm (a b : String) :
    codePointCmp a b = (codePointCmp b a).swap := by
  unfold codePointCmp
  by_cases l1 : listLtB a.data b.data = true
  · rw [if_pos l1]
    have l2 : listLtB b.data a.data = false := listLtB_asymm l1
    rw [if_neg (by simp [l2]), if_pos l1]
    rfl
  · rw [if_neg l1]
    by_cases l2 : listLtB b.data a.data = true
    · rw [if_pos l2, if_pos l2]
      rfl
    · rw [if_neg l2, if_neg l2, if_neg l1]
      rfl

theorem codePointCmp_lt_ex {a b : String}
    (h : codePointCmp a b = Ordering.lt) : listLtB a.data b.data = true := by
  unfold codePointCmp at h
  by_cases l1 : listLtB a.data b.data = true
  · exact l1
  · rw [if_neg l1] at h
    by_cases l2 : listLtB b.data a.data = true
    · rw [if_pos l2] at h
      exact Ordering.noConfusion h
    · rw [if_neg l2] at h
      exact Ordering.noConfusion h

theorem codePointCmp_eq_ex {a b : String}
    (h : codePointCmp a b = Ordering.eq) : a = b := by
  unfold codePointCmp at h
  by_cases l1 : listLtB a.data b.data = true
  · rw [if_pos l1] at h
    exact Ordering.noConfusion h
  · rw [if_neg l1] at h
    by_cases l2 : listLtB b.data a.data = true
    · rw [if_pos l2] at h
      exact Ordering.noConfusion h
    · exact strExt (listLtB_eq_of_not
        (Bool.eq_false_iff.mpr l1) (Bool.eq_false_iff.mpr l2))

theorem codePointCmp_refl (a : String) : codePointCmp a a = Ordering.eq := by
  unfold codePointCmp
  rw [if_neg (by simp [listLtB_irrefl]), if_neg (by simp [listLtB_irrefl])]

theorem codePointCmp_ltlt (a b c : String)
    (h1 : codePointCmp a b = Ordering.lt) (h2 : codePointCmp b c = Ordering.lt) :
    codePointCmp a c = Ordering.lt := by
  unfold codePointCmp
  rw [if_pos (listLtB_trans (codePointCmp_lt_ex h1) (codePointCmp_lt_ex h2))]

theorem codePointCmp_lteq (a b c : String)
    (h1 : codePointCmp a b = Ordering.lt) (h2 : codePointCmp b c = Ordering.eq) :
    codePointCmp a c = Ordering.lt :=
  (codePointCmp_eq_ex h2) ▸ h1

theorem codePointCmp_eqlt (a b c : String)
    (h1 : codePointCmp a b = Ordering.eq) (h2 : codePointCmp b c = Ordering.lt) :
    codePointCmp a c = Ordering.lt :=
  (codePointCmp_eq_ex h1).symm ▸ h2

theorem codePointCmp_eqeq (a b c : String)
    (h1 : codePointCmp a b = Ordering.eq) (h2 : codePointCmp b c = Ordering.eq) :
    codePointCmp a c = Ordering.eq := by
  rw [(codePointCmp_eq_ex h1).trans (codePointCmp_eq_ex h2)]
  exact codePointCmp_refl c

/-- The index document of the C6 witness run: a bundle and a votesite
document, discovered in the opposite order of their categories. -/
def c6Doc : IndexDoc :=
  { schemaVersion := 1, generatedAt := "T",
    entries := [exBundleEntryAt "bundles/b.bundle.json",
                exEntryAt "presets/votesites/a.meta.json" "votesites"] }

/-- C6 witness: the sortedness theorem applied at a concrete
consistent collation (`codePointCmp`) on a concrete two-entry run
whose discovery order is not sorted. -/
theorem index_sorted_locale_witness :
    c6Doc.entries.Pairwise (fun a b =>
      codePointCmp a.category b.category = Ordering.lt ∨
      (codePointCmp a.category b.category = Ordering.eq ∧
        ¬ codePointCmp a.id b.id = Ordering.gt)) :=
  index_sorted_locale codePointCmp codePointCmp_symm codePointCmp_ltlt
    codePointCmp_lteq codePointCmp_eqlt codePointCmp_eqeq
    [("presets/votesites/a.meta.json", exMetaJson),
     ("bundles/b.bundle.json", exBundleJson)] "T" c6Doc (by rfl)

/-- The case tie-break of the ICU default collation for strings that
compare equal case-insensitively: at the first position where the
characters differ (they then differ only in letter case), the
lowercase letter orders first. -/
def caseTieBreak : List Char → List Char → Ordering
  | [], [] => Ordering.eq
  | [], _ :: _ => Ordering.lt
  | _ :: _, [] => Ordering.gt
  | a :: as, b :: bs =>
    if a = b then caseTieBreak as bs
    else if jsCharLower a = a then Ordering.lt else Ordering.gt

/-- Modelled from the documented default-locale ICU collation Node
uses for `localeCompare`, restricted to the ASCII letters this
counterexample exercises: strings are compared case-insensitively
first (the primary level), and strings equal up to case are ordered
lowercase before uppercase at the first case difference (the tertiary
level).  In particular the lowercase a compares before the uppercase
A under Node, while in code-point order the uppercase letter (code
point 65) comes before the lowercase one (97). -/
def icuAsciiCmp (a b : String) : Ordering :=
  let fa := (jsLower a).data
  let fb := (jsLower b).data
  if listLtB fa fb then Ordering.lt
  else if listLtB fb fa then Ordering.gt
  else caseTieBreak a.data b.data

/-- A preset meta document whose id is the lowercase a. -/
def c6aJson : Json :=
  Json.obj [("id", Json.str "a"),
            ("display", Json.obj [("name", Json.str "A")])]

/-- A preset meta document whose id is the uppercase A. -/
def c6AJson : Json :=
  Json.obj [("id", Json.str "A"),
            ("display", Json.obj [("name", Json.str "B")])]

/-- The entry projected from `c6aJson`. -/
def c6aEntry : IndexEntry :=
  { id := "a", category := "votesites", name := "A", description := "",
    keywords := [], domains := [],
    metaPath := "presets/votesites/a1.meta.json", updatedAt := none,
    verified := false }

/-- The entry projected from `c6AJson`. -/
def c6AEntry : IndexEntry :=
  { id := "A", category := "votesites", name := "B", description := "",
    keywords := [], domains := [],
    metaPath := "presets/votesites/a2.meta.json", updatedAt := none,
    verified := false }

/-- C6 counterexample: under the ICU collation Node's `localeCompare`
uses, two same-category entries with ids a and A are emitted in the
order a before A (the comparator judges the lowercase id smaller), and
that pair violates the claim's ascending code-point lexicographic
invariant, which puts the uppercase A (code point 65) before the
lowercase a (97): the produced index is not sorted in plain
lexicographic order. -/
theorem index_sorted_claim_cex :
    indexMainWith icuAsciiCmp
      [("presets/votesites/a2.meta.json", c6AJson),
       ("presets/votesites/a1.meta.json", c6aJson)] "T" =
      Except.ok { schemaVersion := 1, generatedAt := "T",
                  entries := [c6aEntry, c6AEntry] } ∧
    icuAsciiCmp "a" "A" = Ordering.lt ∧
    ¬ (strLtP c6aEntry.category c6AEntry.category ∨
       (c6aEntry.category = c6AEntry.category ∧
         strLeP c6aEntry.id c6AEntry.id)) := by
  refine ⟨by rfl, rfl, ?_⟩
  decide

/-! ### Claim C8 -/

/-- C8: two successful index-builder runs over the same document set
produce identical documents apart from the timestamp: the schema
version and the full entries sequence (including its order) agree. -/
theorem index_idempotent (files : List (String × Json)) (t1 t2 : String)
    (d1 d2 : IndexDoc) (h1 : indexMain files t1 = Except.ok d1)
    (h2 : indexMain files t2 = Except.ok d2) :
    d1.schemaVersion = d2.schemaVersion ∧ d1.entries = d2.entries := by
  unfold indexMain at h1 h2
  cases hr : runBuild files with
  | error e =>
    rw [hr] at h1
    exact Except.noConfusion h1
  | ok es =>
    simp only [hr] at h1 h2
    cases h1
    cases h2
    exact ⟨rfl, rfl⟩

/-- C8 witness: two runs over the same one-document set at different
timestamps. -/
theorem index_idempotent_witness :
    ({ schemaVersion := 1, generatedAt := "T1",
       entries := [exEntryAt "presets/votesites/a.meta.json" "votesites"] } :
        IndexDoc).schemaVersion =
      ({ schemaVersion := 1, generatedAt := "T2",
         entries := [exEntryAt "presets/votesites/a.meta.json" "votesites"] } :
          IndexDoc).schemaVersion ∧
    ({ schemaVersion := 1, generatedAt := "T1",
       entries := [exEntryAt "presets/votesites/a.meta.json" "votesites"] } :
        IndexDoc).entries =
      ({ schemaVersion := 1, generatedAt := "T2",
         entries := [exEntryAt "presets/votesites/a.meta.json" "votesites"] } :
          IndexDoc).entries :=
  index_idempotent [("presets/votesites/a.meta.json", exMetaJson)] "T1" "T2"
    _ _ rfl rfl

/-! ### Claim C7 -/

/-- Validation failures of the Reward branch for an unsupported reward
type: whatever the other fields hold, some check before the first write
fires, so the branch returns an error and performs no writes. -/
theorem rewardBranch_error_of_bad_type (fields : List (String × String))
    (h1 : jsLower (jsTrim (lookupField fields "Reward type")) ≠ "commands")
    (h2 : jsLower (jsTrim (lookupField fields "Reward type")) ≠ "messages") :
    ∃ e, rewardBranch fields = Except.error e := by
  simp only [rewardBranch]
  by_cases c1 : strStartsWith (jsTrim (lookupField fields "Preset ID"))
      "reward:" = true
  · rw [if_neg (not_not_intro c1)]
    by_cases c2 : jsTrim (lookupField fields "Display name") = ""
    · rw [if_pos c2]
      exact ⟨_, rfl⟩
    · rw [if_neg c2, if_pos ⟨h1, h2⟩]
      exact ⟨_, rfl⟩
  · rw [if_pos c1]
    exact ⟨_, rfl⟩

/-- C7: a Reward generation request whose reward-type field, trimmed
and lowercased, is neither commands nor messages makes the generator
abort with a validation error, writing neither the metadata document
nor the fragment file. -/
theorem reward_bad_type_rejected (num title body : String) (hnum : num ≠ "")
    (h1 : jsLower (jsTrim (lookupField (parseIssueForm body) "Reward type")) ≠
      "commands")
    (h2 : jsLower (jsTrim (lookupField (parseIssueForm body) "Reward type")) ≠
      "messages") :
    (∃ e, generatorMain (some num) title body (some "reward") =
      Except.error e) ∧
    genWrites (generatorMain (some num) title body (some "reward")) = [] := by
  have hmain : generatorMain (some num) title body (some "reward") =
      rewardBranch (parseIssueForm body) := by
    unfold generatorMain
    have e1 : ¬ (some num = none ∨ some num = some "") := by simp [hnum]
    rw [if_neg e1]
    rfl
  obtain ⟨e, he⟩ := rewardBranch_error_of_bad_type (parseIssueForm body) h1 h2
  rw [hmain, he]
  exact ⟨⟨e, rfl⟩, rfl⟩

/-- The issue body of the C7 witness: a Reward form whose reward type
is music. -/
def c7Body : String :=
  "### Preset ID\nreward:x\n### Display name\nX\n### Reward type\nmusic\n### Default lines (one per line)\na"

/-- C7 witness: the rejection applied to the concrete music
submission. -/
theorem reward_bad_type_rejected_witness :
    ("1" : String) ≠ "" ∧
    genWrites (generatorMain (some "1") "" c7Body (some "reward")) = [] :=
  ⟨by decide,
   (reward_bad_type_rejected "1" "" c7Body (by decide) (by decide)
     (by decide)).2⟩

/-! ### Claim C10 -/

/-- C10: the identifying numeric token is only checked for presence;
for any two distinct non-empty values, with title, body and kind held
fixed, the generator performs exactly the same computation and writes
exactly the same files. -/
theorem issue_number_noninterference (n1 n2 title body : String)
    (kind : Option String) (hne : n1 ≠ n2) (h1 : n1 ≠ "") (h2 : n2 ≠ "") :
    generatorMain (some n1) title body kind =
      generatorMain (some n2) title body kind := by
  unfold generatorMain
  have e1 : ¬ (some n1 = none ∨ some n1 = some "") := by simp [h1]
  have e2 : ¬ (some n2 = none ∨ some n2 = some "") := by simp [h2]
  rw [if_neg e1, if_neg e2]

/-- C10 witness: two concrete distinct issue numbers produce the same
result. -/
theorem issue_number_noninterference_witness :
    generatorMain (some "1") "t" "b" none =
      generatorMain (some "2") "t" "b" none :=
  issue_number_noninterference "1" "2" "t" "b" none (by decide) (by decide)
    (by decide)

/-! ### Claim C4 -/

/-- C4 (amended): in every produced index document, every domain value
is a fixpoint of lowercasing and each entry's domain list has no
duplicates; every keyword value is a fixpoint of both trimming and
lowercasing and each entry's keyword list has no duplicates.  (The
original claim also required every domain value to be a fixpoint of the
one-shot `www.` stripping and, implicitly through trimming, of
trimming; both fail because the normalization strips only one leading
`www.` and strips it after trimming — see the counterexample.) -/
theorem entry_normalization (files : List (String × Json)) (now : String)
    (doc : IndexDoc) (h : indexMain files now = Except.ok doc) :
    ∀ e ∈ doc.entries,
      (e.domains.Nodup ∧ ∀ v ∈ e.domains, jsLower v = v) ∧
      (e.keywords.Nodup ∧ ∀ k ∈ e.keywords, jsTrim k = k ∧ jsLower k = k) := by
  unfold indexMain at h
  cases hr : runBuild files with
  | error e =>
    rw [hr] at h
    exact Except.noConfusion h
  | ok es =>
    simp only [hr] at h
    cases h
    intro e he
    have he2 : e ∈ es := sortPerm_mem he
    obtain ⟨rel, d, _, hpf⟩ := buildLoop_entries_from files [] es hr e he2
    unfold processFile at hpf
    by_cases hb : strEndsWith rel ".bundle.json" = true
    · rw [if_pos hb] at hpf
      unfold bundleEntry at hpf
      split at hpf
      · cases hpf
        refine ⟨⟨List.nodup_nil, ?_⟩,
                normalizeKeywords_nodup _, normalizeKeywords_fixed _⟩
        intro v hv
        exact absurd hv (List.not_mem_nil v)
      · exact Except.noConfusion hpf
    · rw [if_neg hb] at hpf
      unfold toIndexEntry at hpf
      split at hpf
      · exact Except.noConfusion hpf
      · split at hpf
        · exact Except.noConfusion hpf
        · cases hpf
          exact ⟨⟨normalizeDomains_nodup _, normalizeDomains_lower _⟩,
                 normalizeKeywords_nodup _, normalizeKeywords_fixed _⟩

/-- The meta document of the spec's round-trip scenario: mixed-case and
padded domains and keywords. -/
def c4Json : Json :=
  Json.obj [("id", Json.str "votesite:example"),
            ("display", Json.obj [("name", Json.str "Example")]),
            ("match", Json.obj
              [("domains", Json.arr [Json.str "WWW.Example.com ",
                                     Json.str "example.com"]),
               ("keywords", Json.arr [Json.str "Foo", Json.str " foo"])])]

/-- The entry projected from `c4Json`. -/
def c4Entry : IndexEntry :=
  { id := "votesite:example", category := "votesites", name := "Example",
    description := "", keywords := ["foo"], domains := ["example.com"],
    metaPath := "presets/votesites/e.meta.json", updatedAt := none,
    verified := false }

/-- C4 witness: the amended normalization invariant evaluated on the
concrete round-trip entry. -/
theorem entry_normalization_witness :
    (c4Entry.domains.Nodup ∧ ∀ v ∈ c4Entry.domains, jsLower v = v) ∧
    (c4Entry.keywords.Nodup ∧
      ∀ k ∈ c4Entry.keywords, jsTrim k = k ∧ jsLower k = k) :=
  entry_normalization [("presets/votesites/e.meta.json", c4Json)] "T"
    { schemaVersion := 1, generatedAt := "T", entries := [c4Entry] } (by rfl)
    c4Entry (List.mem_singleton.mpr rfl)

/-- A meta document whose domains break the claimed normal form: one
domain with a doubled `www.` and one with whitespace after the
`www.`. -/
def c4wJson : Json :=
  Json.obj [("id", Json.str "w"),
            ("display", Json.obj [("name", Json.str "W")]),
            ("match", Json.obj
              [("domains", Json.arr [Json.str "www.www.example.com",
                                     Json.str "www. example.com"])])]

/-- The entry projected from `c4wJson`: both produced domain values
differ from their own trimmed, lowercased, `www.`-stripped form. -/
def c4wEntry : IndexEntry :=
  { id := "w", category := "votesites", name := "W", description := "",
    keywords := [], domains := [" example.com", "www.example.com"],
    metaPath := "presets/votesites/w.meta.json", updatedAt := none,
    verified := false }

/-- C4 counterexample: the produced index contains the domain values
`www.example.com` (still carrying a `www.` because only one copy is
stripped) and ` example.com` (left untrimmed because stripping happens
after trimming), and neither equals its own trimmed, lowercased,
`www.`-stripped normal form as the claim requires. -/
theorem entry_normalization_cex :
    runBuild [("presets/votesites/w.meta.json", c4wJson)] =
      Except.ok [c4wEntry] ∧
    domainNormalForm "www.example.com" = "example.com" ∧
    ("example.com" : String) ≠ "www.example.com" ∧
    domainNormalForm " example.com" = "example.com" ∧
    ("example.com" : String) ≠ " example.com" := by
  refine ⟨by rfl, rfl, ?_, rfl, ?_⟩ <;> decide

/-! ### Claim C9 -/

/-- The lines of a rendered issue form: for each section, a header line
followed by the section's body lines. -/
def linesOf (sections : List (String × List String)) : List String :=
  sections.flatMap (fun s => ("### " ++ s.1) :: s.2)

/-- Renders a list of (field name, body lines) sections in the
issue-form shape the Form Parser contract describes. -/
def renderSections (sections : List (String × List String)) : String :=
  joinLines (linesOf sections)

/-- A well-formed field name: no line terminators (a name with a
newline could not sit on one header line, and a carriage return in the
trimmed name makes the header regex fail). -/
def goodName (n : String) : Prop :=
  ∀ c ∈ n.data, c ≠ '\n' ∧ c ≠ '\r'

/-- A well-formed body line: a single line (no line terminators) that
is not itself a header line. -/
def goodBodyLine (ln : String) : Prop :=
  (∀ c ∈ ln.data, c ≠ '\n' ∧ c ≠ '\r') ∧ strStartsWith ln "###" = false

/-- The mapping the (amended) claim C9 predicts for a rendered form,
written from the claim's words: each section stores its trimmed field
name mapped to its body lines joined by newline and trimmed, with the
"No response" sentinel normalized to the empty string; a later section
with the same trimmed name overwrites an earlier one (last header
wins). -/
def claimedFormMap (sections : List (String × List String)) :
    List (String × String) :=
  sections.foldl
    (fun m s => setKey m (jsTrim s.1)
      (normNoResponse (jsTrim (joinLines s.2)))) []

theorem headerName_render {n : String} (hn : goodName n) :
    headerName? ("### " ++ n) = some (jsTrim n) := by
  have hkey : jsTrim (⟨' ' :: n.data⟩ : String) = jsTrim n := rfl
  have hmem : '\r' ∉ (jsTrim n).data := by
    intro hmem
    exact (hn '\r' ((trimChars_sublist n.data).subset hmem)).2 rfl
  show (if '\r' ∈ (jsTrim (⟨' ' :: n.data⟩ : String)).data then none
        else some (jsTrim (⟨' ' :: n.data⟩ : String))) = some (jsTrim n)
  rw [hkey, if_neg hmem]

theorem headerName_none {ln : String}
    (h : strStartsWith ln "###" = false) : headerName? ln = none := by
  unfold headerName?
  rw [h]
  rfl

theorem splitChar_no_sep {sep : Char} :
    ∀ {l : List Char}, sep ∉ l → splitChar sep l = [l] := by
  intro l
  induction l with
  | nil => intro _; rfl
  | cons c t ih =>
    intro h
    have hc : ¬ (c = sep) := fun he => h (he ▸ List.mem_cons_self c t)
    simp only [splitChar]
    rw [if_neg hc, ih (fun hm => h (List.mem_cons_of_mem _ hm))]

theorem splitChar_append {sep : Char} :
    ∀ {l : List Char}, sep ∉ l → ∀ (t : List Char),
      splitChar sep (l ++ sep :: t) = l :: splitChar sep t := by
  intro l
  induction l with
  | nil =>
    intro _ t
    simp only [List.nil_append, splitChar]
    rw [if_pos trivial]
  | cons c l' ih =>
    intro h t
    have hc : ¬ (c = sep) := fun he => h (he ▸ List.mem_cons_self _ _)
    simp only [List.cons_append, splitChar, List.append_eq]
    rw [if_neg hc, ih (fun hm => h (List.mem_cons_of_mem _ hm)) t]

theorem splitNl_charJoin :
    ∀ {ls : List (List Char)}, ls ≠ [] → (∀ l ∈ ls, '\n' ∉ l) →
      splitNl (charJoin ls) = ls := by
  intro ls
  induction ls with
  | nil => intro h _; exact absurd rfl h
  | cons l rest ih =>
    intro _ hno
    cases rest with
    | nil => exact splitChar_no_sep (hno l (List.mem_cons_self _ _))
    | cons m rest' =>
      show splitChar '\n' (charJoin (l :: m :: rest')) = _
      rw [show charJoin (l :: m :: rest') = l ++ '\n' :: charJoin (m :: rest')
          from rfl]
      rw [splitChar_append (hno l (List.mem_cons_self _ _))]
      rw [show splitChar '\n' (charJoin (m :: rest')) = splitNl (charJoin (m :: rest'))
          from rfl]
      rw [ih (by simp) (fun x hx => hno x (List.mem_cons_of_mem _ hx))]

theorem chopCr_no_cr {l : List Char} (h : '\r' ∉ l) : chopCr l = l := by
  unfold chopCr
  split
  · next hg => exact absurd (List.mem_of_mem_getLast? hg) h
  · rfl

theorem mapInit_id {α : Type} {f : α → α} :
    ∀ {ls : List α}, (∀ x ∈ ls, f x = x) → mapInit f ls = ls := by
  intro ls
  induction ls with
  | nil => intro _; rfl
  | cons a rest ih =>
    intro h
    cases rest with
    | nil => rfl
    | cons b rest' =>
      show f a :: mapInit f (b :: rest') = _
      rw [h a (List.mem_cons_self _ _),
          ih (fun x hx => h x (List.mem_cons_of_mem _ hx))]

theorem linesOf_chars {sections : List (String × List String)}
    (hgood : ∀ s ∈ sections, goodName s.1 ∧ ∀ ln ∈ s.2, goodBodyLine ln) :
    ∀ ln ∈ linesOf sections, '\n' ∉ ln.data ∧ '\r' ∉ ln.data := by
  intro ln hln
  obtain ⟨s, hs, hmem⟩ := List.mem_flatMap.mp hln
  rcases List.mem_cons.mp hmem with rfl | hbody
  · constructor
    · intro hc
      have : ('\n' : Char) ∈ ("### ".data : List Char) ∨ '\n' ∈ s.1.data := by
        have he : (("### " ++ s.1).data : List Char) = "### ".data ++ s.1.data := rfl
        rw [he] at hc
        exact List.mem_append.mp hc
      rcases this with h | h
      · simp at h
      · exact ((hgood s hs).1 '\n' h).1 rfl
    · intro hc
      have : ('\r' : Char) ∈ ("### ".data : List Char) ∨ '\r' ∈ s.1.data := by
        have he : (("### " ++ s.1).data : List Char) = "### ".data ++ s.1.data := rfl
        rw [he] at hc
        exact List.mem_append.mp hc
      rcases this with h | h
      · simp at h
      · exact ((hgood s hs).1 '\r' h).2 rfl
  · have hg := ((hgood s hs).2 ln hbody).1
    exact ⟨fun hc => (hg '\n' hc).1 rfl, fun hc => (hg '\r' hc).2 rfl⟩

theorem jsSplitLines_render {sections : List (String × List String)}
    (hs : linesOf sections ≠ [])
    (hgood : ∀ s ∈ sections, goodName s.1 ∧ ∀ ln ∈ s.2, goodBodyLine ln) :
    jsSplitLines (renderSections sections) = linesOf sections := by
  have hchars := linesOf_chars hgood
  unfold jsSplitLines renderSections joinLines
  have h1 : splitNl (charJoin ((linesOf sections).map String.data)) =
      (linesOf sections).map String.data := by
    apply splitNl_charJoin
    · intro hmap
      exact hs (List.map_eq_nil_iff.mp hmap)
    · intro l hl
      obtain ⟨ln, hmem, rfl⟩ := List.mem_map.mp hl
      exact (hchars ln hmem).1
  rw [show (String.mk (charJoin (List.map String.data (linesOf sections)))).data =
      charJoin ((linesOf sections).map String.data) from rfl]
  rw [h1]
  rw [mapInit_id (fun x hx => by
    obtain ⟨ln, hmem, rfl⟩ := List.mem_map.mp hx
    exact chopCr_no_cr (hchars ln hmem).2)]
  rw [List.map_map]
  have : ∀ a ∈ linesOf sections,
      ((fun l => (⟨l⟩ : String)) ∘ String.data) a = id a := fun a _ => rfl
  rw [List.map_congr_left this, List.map_id]

theorem parseLoop_body :
    ∀ {bls : List String}, (∀ ln ∈ bls, headerName? ln = none) →
      ∀ (out : List (String × String)) (k : String) (buf rest : List String),
        parseLoop out (some k) buf (bls ++ rest) =
          parseLoop out (some k) (buf ++ bls) rest := by
  intro bls
  induction bls with
  | nil =>
    intro _ out k buf rest
    rw [List.nil_append, List.append_nil]
  | cons b bls' ih =>
    intro h out k buf rest
    have hb := h b (List.mem_cons_self _ _)
    show parseLoop out (some k) buf (b :: (bls' ++ rest)) = _
    simp only [parseLoop, hb]
    rw [ih (fun x hx => h x (List.mem_cons_of_mem _ hx)) out k (buf ++ [b]) rest]
    rw [List.append_assoc]
    rfl

theorem parseLoop_sections :
    ∀ (sections : List (String × List String)),
      (∀ s ∈ sections, goodName s.1 ∧ ∀ ln ∈ s.2, goodBodyLine ln) →
      ∀ (out : List (String × String)) (curKey : Option String)
        (buf : List String),
        parseLoop out curKey buf (linesOf sections) =
          sections.foldl
            (fun m s => setKey m (jsTrim s.1) (jsTrim (joinLines s.2)))
            (flushInto out curKey buf) := by
  intro sections
  induction sections with
  | nil => intro _ out curKey buf; rfl
  | cons s rest ih =>
    intro hgood out curKey buf
    obtain ⟨n, b⟩ := s
    have hn : goodName n := (hgood (n, b) (List.mem_cons_self _ _)).1
    have hb : ∀ ln ∈ b, goodBodyLine ln :=
      (hgood (n, b) (List.mem_cons_self _ _)).2
    show parseLoop out curKey buf (("### " ++ n) :: (b ++ linesOf rest)) = _
    simp only [parseLoop, headerName_render hn]
    rw [parseLoop_body (fun ln hln => headerName_none (hb ln hln).2)]
    rw [ih (fun x hx => hgood x (List.mem_cons_of_mem _ hx))]
    rfl

theorem parseLoop_no_header :
    ∀ (ls : List String), (∀ ln ∈ ls, headerName? ln = none) →
      ∀ (out : List (String × String)) (buf : List String),
        parseLoop out none buf ls = out := by
  intro ls
  induction ls with
  | nil => intro _ out buf; rfl
  | cons ln rest ih =>
    intro h out buf
    have hl := h ln (List.mem_cons_self _ _)
    simp only [parseLoop, hl]
    exact ih (fun x hx => h x (List.mem_cons_of_mem _ hx)) out buf

theorem setKey_map_norm (m : List (String × String)) (k v : String) :
    (setKey m k v).map (fun p => (p.1, normNoResponse p.2)) =
      setKey (m.map (fun p => (p.1, normNoResponse p.2))) k
        (normNoResponse v) := by
  unfold setKey
  have hany : (List.map (fun p => (p.1, normNoResponse p.2)) m).any
      (fun p => decide (p.1 = k)) = m.any (fun p => decide (p.1 = k)) := by
    rw [List.any_map]
    exact congrArg _ (funext fun q => rfl)
  rw [hany]
  by_cases hc : (m.any fun p => decide (p.1 = k)) = true
  · simp only [if_pos hc]
    rw [List.map_map, List.map_map]
    apply List.map_congr_left
    intro p _
    by_cases hp : p.1 = k
    · show (fun p => (p.1, normNoResponse p.2)) (if p.1 = k then (k, v) else p) =
        (if ((fun p => (p.1, normNoResponse p.2)) p).1 = k then
          (k, normNoResponse v) else (fun p => (p.1, normNoResponse p.2)) p)
      rw [if_pos hp, if_pos hp]
    · show (fun p => (p.1, normNoResponse p.2)) (if p.1 = k then (k, v) else p) =
        (if ((fun p => (p.1, normNoResponse p.2)) p).1 = k then
          (k, normNoResponse v) else (fun p => (p.1, normNoResponse p.2)) p)
      rw [if_neg hp, if_neg hp]
  · simp only [if_neg hc]
    rw [List.map_append]
    rfl

theorem map_norm_foldl :
    ∀ (sections : List (String × List String)) (m : List (String × String)),
      (sections.foldl
          (fun m s => setKey m (jsTrim s.1) (jsTrim (joinLines s.2))) m).map
          (fun p => (p.1, normNoResponse p.2)) =
        sections.foldl
          (fun m s => setKey m (jsTrim s.1)
            (normNoResponse (jsTrim (joinLines s.2))))
          (m.map (fun p => (p.1, normNoResponse p.2))) := by
  intro sections
  induction sections with
  | nil => intro m; rfl
  | cons s rest ih =>
    intro m
    show (rest.foldl _ (setKey m (jsTrim s.1) (jsTrim (joinLines s.2)))).map _ = _
    rw [ih (setKey m (jsTrim s.1) (jsTrim (joinLines s.2)))]
    rw [setKey_map_norm]
    rfl

/-- C9 (amended): the Form Parser is a pure total function; on any
input in the shape the contract describes (a sequence of sections, each
a header line followed by body lines that are neither headers nor
multi-line), it returns the mapping from each header's trimmed field
name to that header's body lines joined by newline and trimmed, with
the "No response" sentinel normalized to the empty string and — the
amendment — the last header winning when several headers share a
trimmed field name; and an input with no header lines at all yields the
empty mapping rather than an error. -/
theorem form_parser_contract :
    (∀ sections : List (String × List String),
        (∀ s ∈ sections, goodName s.1 ∧ ∀ ln ∈ s.2, goodBodyLine ln) →
        parseIssueForm (renderSections sections) = claimedFormMap sections) ∧
    (∀ body : String, (∀ ln ∈ jsSplitLines body, headerName? ln = none) →
        parseIssueForm body = []) := by
  constructor
  · intro sections hgood
    rcases sections with _ | ⟨s0, rest⟩
    · rfl
    · have hsnil : linesOf (s0 :: rest) ≠ [] := by
        show ("### " ++ s0.1) :: (s0.2 ++ linesOf rest) ≠ []
        simp
      unfold parseIssueForm claimedFormMap
      rw [jsSplitLines_render hsnil hgood]
      rw [parseLoop_sections _ hgood [] none []]
      rw [show flushInto [] none [] = [] from rfl]
      rw [map_norm_foldl]
      rfl
  · intro body hnone
    unfold parseIssueForm
    rw [parseLoop_no_header _ hnone [] []]
    rfl

instance decGoodName (n : String) : Decidable (goodName n) := by
  unfold goodName; infer_instance

instance decGoodBodyLine (ln : String) : Decidable (goodBodyLine ln) := by
  unfold goodBodyLine; infer_instance

/-- Sections of the C9 witness: two sections sharing the field name A
(the second wins) and one whose body is the "No response" sentinel. -/
def c9Sections : List (String × List String) :=
  [("A", ["x"]), ("A", ["y"]), ("B", ["No response"])]

/-- C9 witness: the contract evaluated on the concrete sections and on
a concrete header-free body. -/
theorem form_parser_contract_witness :
    parseIssueForm (renderSections c9Sections) = claimedFormMap c9Sections ∧
    parseIssueForm "plain text\nwith no headers" = [] :=
  ⟨form_parser_contract.1 c9Sections (by decide),
   form_parser_contract.2 "plain text\nwith no headers" (by decide)⟩

/-- C9 counterexample: the input text has a header A whose body is x,
but the returned mapping does not map that header's field name to its
own body — the later header with the same name overwrote it, so A maps
to y.  This refutes the claim as stated, which requires the mapping to
send each header's field name to that header's body lines. -/
theorem form_parser_dup_header_cex :
    parseIssueForm "### A\nx\n### A\ny" = [("A", "y")] ∧
    lookupStr (parseIssueForm "### A\nx\n### A\ny") "A" = some "y" ∧
    jsTrim "x" = "x" ∧ ("y" : String) ≠ "x" := by
  refine ⟨by rfl, by rfl, rfl, ?_⟩
  decide
